import Mathlib

/-!
# Verification of the otio-aaf-adapter structural transcription engine

This file gives a shallow embedding, in Lean 4, of the parts of the
`otio-aaf-adapter` repository that the specification's claims are about:

* the time-warp effect classification of
  `advanced_authoring_format._transcribe_linear_timewarp`,
* the `Transition` offset computation inside `_transcribe`,
* the Master/Composition mob memoization cache of `_transcribe`,
* the `Selector` handling of `_transcribe`,
* the pre-write validator `aaf_writer.validate_metadata`,
* the adapter hook dispatch of `aaf_adapter.hooks`,
* the marker reattachment pass `_attach_markers`, and
* the structural simplifier `_simplify` with its helpers.

Python numbers (AAF rationals and Python floats) are modelled as exact
rationals `ℚ`; machine integers as `ℤ`/`ℕ`.  Python exceptions are modelled
with `Option`/`Except`.  Definitions follow the Python source line by line;
comments cite `advanced_authoring_format.py` (`aaf.py` below),
`aaf_writer.py` and `hooks.py` of the repository.
-/

namespace AAF

/-! ## Time warps (`_transcribe_linear_timewarp`, aaf.py lines 1023-1105) -/

/-- A control point of the `PARAM_SPEED_OFFSET_MAP_U` varying value
(`control_point.time` / `control_point.value`, aaf.py lines 1070-1074). -/
structure ControlPoint where
  time : ℚ
  value : ℚ
deriving Repr, DecidableEq

/-- The stored `SpeedRatio` parameter is a *string* in the Python source; it is
compared to `str(item.length)`, tested for a `'/'` character, and otherwise fed
to `float()`.  We model the two possible shapes of such a string: the decimal
rendering of an integer, and a fraction rendering `"n/d"`.  (A fraction string
contains `'/'` and therefore never string-equals `str(item.length)`.) -/
inductive SpeedRatioStr
  | intStr (n : ℤ)
  | fracStr (num den : ℤ)
deriving Repr, DecidableEq

/-- The OTIO effect classes that the time-warp transcription can produce:
`otio.schema.LinearTimeWarp` (with its `time_scalar`), `otio.schema.FreezeFrame`
(whose class pins `time_scalar` to 0), and the opaque unsupported effect built
by `_transcribe_fancy_timewarp` (aaf.py lines 1098-1105). -/
inductive OtioTimeEffect
  | linearTimeWarp (time_scalar : ℚ)
  | freezeFrame
  | fancyTimeWarp
deriving Repr, DecidableEq

/-- The `time_scalar` carried by a produced effect.  `FreezeFrame` has
`time_scalar = 0` by class definition; the opaque fancy effect has none. -/
def OtioTimeEffect.timeScalar : OtioTimeEffect → Option ℚ
  | .linearTimeWarp s => some s
  | .freezeFrame => some 0
  | .fancyTimeWarp => none

/-- The `effect.time_scalar` computation of `_transcribe_linear_timewarp`
(aaf.py lines 1063-1086), for the case of at most two control points.
`none` models a raised Python exception:

* two control points with equal times: `float(...) / float(0)` raises
  `ZeroDivisionError` (line 1071-1074);
* a missing `SpeedRatio` parameter: `'/' in None` raises `TypeError`
  (line 1081);
* `SpeedRatio` equal to `"0"` (with `item.length ≠ 0`): `1.0 / 0.0` raises
  `ZeroDivisionError` (line 1086);
* a fraction string `"0/d"`: `denominator / 0.0` raises `ZeroDivisionError`
  (line 1084). -/
def timewarpTimeScalar (itemLength : ℤ) (speedRatio : Option SpeedRatioStr) :
    List ControlPoint → Option ℚ
  | [p0, p1] =>
    -- aaf.py 1067-1074: with just two points, compute the slope
    if p1.time = p0.time then none
    else some ((p1.value - p0.value) / (p1.time - p0.time))
  | _ =>
    -- aaf.py 1075-1086: fall back to the SpeedRatio parameter
    match speedRatio with
    | none => none
    | some (.intStr n) =>
      if n = itemLength then
        -- aaf.py 1078-1080: SpeedRatio == str(item.length): freeze frame
        some 0
      else if n = 0 then none
      else some (1 / (n : ℚ))
    | some (.fracStr num den) =>
      -- aaf.py 1081-1084: "n/d" maps to time_scalar = d/n
      if num = 0 then none else some ((den : ℚ) / (num : ℚ))

/-- Shallow embedding of `_transcribe_linear_timewarp` (aaf.py 1023-1095).
With more than two control points on the speed-offset map the effect is
delegated to `_transcribe_fancy_timewarp` (lines 1064-1066); otherwise the
computed `time_scalar` selects `FreezeFrame` when it is exactly 0
(lines 1088-1093) and `LinearTimeWarp` otherwise. -/
def transcribeLinearTimewarp (itemLength : ℤ) (speedRatio : Option SpeedRatioStr)
    (points : List ControlPoint) : Option OtioTimeEffect :=
  if points.length > 2 then
    some .fancyTimeWarp
  else
    (timewarpTimeScalar itemLength speedRatio points).map fun s =>
      if s = 0 then .freezeFrame else .linearTimeWarp s

/-! ## Transitions (`_transcribe`, aaf.py lines 746-779) -/

/-- `otio.opentime.RationalTime`: a value at a rate. -/
structure RationalTime where
  value : ℚ
  rate : ℚ
deriving Repr, DecidableEq

/-- The offsets of the produced `otio.schema.Transition`. -/
structure OtioTransition where
  in_offset : RationalTime
  out_offset : RationalTime
deriving Repr, DecidableEq

/-- Shallow embedding of the offset computation for a graph `Transition`
component (aaf.py lines 776-779):

    in_offset = int(metadata.get("CutPoint", "0"))
    out_offset = item.length - in_offset

both expressed at the inherited slot edit rate. -/
def transcribeTransition (length : ℤ) (cutPoint : Option ℤ) (edit_rate : ℚ) :
    OtioTransition :=
  let in_off : ℤ := cutPoint.getD 0
  let out_off : ℤ := length - in_off
  { in_offset := ⟨(in_off : ℚ), edit_rate⟩
    out_offset := ⟨(out_off : ℚ), edit_rate⟩ }

/-! ## Mob memoization (`_transcribe`, aaf.py lines 626-663)

`_transcribe` keeps a cache `_MOB_TIMELINE_CACHE : mob_id → timeline`.  For a
`MasterMob` (lines 630-639) and for a `CompositionMob` (lines 641-663) it first
looks the mob id up; on a hit it returns the cached timeline.  On a miss it
transcribes the mob — which recurses into the mob's slots, and through
`SourceClip` children (line 678) into other Master/Composition mobs — and only
*after* that recursion does it store the result
(`_MOB_TIMELINE_CACHE[item.mob_id] = result`, lines 639 and 663).

The model keeps exactly that structure.  A mob is its kind plus the list of mob
ids reached from its slots while transcribing; the produced tree node records
the mob id and the nodes produced for those references.  The recursion is
bounded by a fuel parameter: `none` models a Python run that never returns
(unbounded recursion on a reference cycle). -/

/-- Mob kinds that `_transcribe` memoizes. -/
inductive MobKind
  | master
  | composition
deriving Repr, DecidableEq

/-- A mob of the graph: its kind and the mob ids referenced from its slots
(through `SourceClip` components, aaf.py lines 665-683). -/
structure Mob where
  kind : MobKind
  childRefs : List Nat
deriving Repr, DecidableEq

/-- The tree node (`otio.schema.Timeline`) produced for a mob: the mob it came
from and the nodes produced for the mobs its slots reference. -/
inductive MobNode
  | node (mobId : Nat) (children : List MobNode)
deriving Repr

/-- The `_MOB_TIMELINE_CACHE` dictionary, keyed by mob id.  Insertion prepends,
lookup takes the most recent binding, matching dictionary assignment. -/
def MobCache := List (Nat × MobNode)

/-- Dictionary lookup `_MOB_TIMELINE_CACHE.get(mob_id, None)`. -/
def cacheGet (cache : MobCache) (k : Nat) : Option MobNode :=
  match cache with
  | [] => none
  | (k', v) :: rest => if k' = k then some v else cacheGet rest k

/-- Dictionary assignment `_MOB_TIMELINE_CACHE[mob_id] = result`. -/
def cacheInsert (cache : MobCache) (k : Nat) (v : MobNode) : MobCache :=
  (k, v) :: cache

mutual

/-- Shallow embedding of `_transcribe` on a Master/Composition mob
(aaf.py lines 630-663): consult the cache first; on a hit return the cached
node with the cache unchanged; on a miss transcribe the mob's referenced
children and insert the result into the cache *afterwards* (lines 639, 663).
The environment maps a mob id to its mob (`none` = unresolvable reference);
`fuel` bounds the recursion depth, `none` modelling non-termination. -/
def transcribeMob (env : List Mob) (fuel : Nat) (mobId : Nat) (cache : MobCache) :
    Option (MobNode × MobCache) :=
  match fuel with
  | 0 => none
  | f + 1 =>
    match cacheGet cache mobId with
    | some t => some (t, cache)
    | none =>
      match env[mobId]? with
      | none => none
      | some mob =>
        match transcribeMobRefs env f mob.childRefs cache with
        | none => none
        | some (kids, cache2) =>
          let t := MobNode.node mobId kids
          some (t, cacheInsert cache2 mobId t)
termination_by (fuel, 0)

/-- Transcription of the referenced mobs of one mob's slots, left to right,
threading the cache (each `SourceClip` child triggers `_transcribe(mob, ...)`,
aaf.py line 678). -/
def transcribeMobRefs (env : List Mob) (fuel : Nat) (refs : List Nat)
    (cache : MobCache) : Option (List MobNode × MobCache) :=
  match refs with
  | [] => some ([], cache)
  | r :: rest =>
    match transcribeMob env fuel r cache with
    | none => none
    | some (t, cache1) =>
      match transcribeMobRefs env fuel rest cache1 with
      | none => none
      | some (ts, cache2) => some (t :: ts, cache2)
termination_by (fuel, refs.length + 1)

end

mutual

/-- Modelled from the spec: "On miss, transcribe and insert into cache before
recursing into children (guards against cycles)" — the variant of
`transcribeMob` that the specification text describes, inserting a (possibly
partial) node for the mob id *before* recursing into the mob's children, then
replacing it with the finished node.  This definition follows the spec's words,
not the source, and exists only to be compared with `transcribeMob`. -/
def transcribeMobSpecIns (env : List Mob) (fuel : Nat) (mobId : Nat)
    (cache : MobCache) : Option (MobNode × MobCache) :=
  match fuel with
  | 0 => none
  | f + 1 =>
    match cacheGet cache mobId with
    | some t => some (t, cache)
    | none =>
      match env[mobId]? with
      | none => none
      | some mob =>
        let part0 := MobNode.node mobId []
        let cache0 := cacheInsert cache mobId part0
        match transcribeMobRefsSpecIns env f mob.childRefs cache0 with
        | none => none
        | some (kids, cache2) =>
          let t := MobNode.node mobId kids
          some (t, cacheInsert cache2 mobId t)
termination_by (fuel, 0)

/-- Child-reference recursion for `transcribeMobSpecIns`. -/
def transcribeMobRefsSpecIns (env : List Mob) (fuel : Nat) (refs : List Nat)
    (cache : MobCache) : Option (List MobNode × MobCache) :=
  match refs with
  | [] => some ([], cache)
  | r :: rest =>
    match transcribeMobSpecIns env fuel r cache with
    | none => none
    | some (t, cache1) =>
      match transcribeMobRefsSpecIns env fuel rest cache1 with
      | none => none
      | some (ts, cache2) => some (t :: ts, cache2)
termination_by (fuel, refs.length + 1)

end

/-- A one-mob environment whose single composition mob references itself: the
simplest reference cycle. -/
def cyclicMobEnv : List Mob := [⟨MobKind.composition, [0]⟩]

/-! ## Selector components (`_transcribe`, aaf.py lines 915-962) -/

/-- Python exceptions raised by the Selector branch.  `typeError` models a
`TypeError` (a built-in exception that is *not* an `AAFAdapterError`). -/
inductive PyError
  | adapterError
  | typeError
deriving Repr, DecidableEq

/-- The components that can appear as the `Selected`/`Alternates` values of a
`Selector`, as far as the Selector branch distinguishes them. -/
inductive SelComponent
  | filler (length : ℤ)
  | scopeReference (length : ℤ)
  | sourceClip (length : ℤ)
deriving Repr, DecidableEq

/-- The tree item produced for a Selector child: whether it transcribed to an
`otio.schema.Gap`, its declared length, and its `enabled` flag. -/
structure SelResult where
  isGap : Bool
  length : ℤ
  enabled : Bool
deriving Repr, DecidableEq

/-- Transcription of a single Selector child: `Filler` and `ScopeReference`
become `Gap`s (aaf.py lines 781-789 and 855-866), a `SourceClip` becomes a
non-gap item; every produced item starts out enabled. -/
def transcribeSelChild : SelComponent → SelResult
  | .filler l => ⟨true, l, true⟩
  | .scopeReference l => ⟨true, l, true⟩
  | .sourceClip l => ⟨false, l, true⟩

/-- Shallow embedding of the Selector branch of `_transcribe`
(aaf.py lines 915-962), with `alternates = none` modelling an absent
`Alternates` property (`item.getvalue('Alternates', None)`).

When the selected child is a `Filler` or `ScopeReference` (lines 924-936):

* if `alternates is None`, the Python builds the error message with
  `len(alternates)` and `len(None)` raises `TypeError` *before* the intended
  `AAFAdapterError` is raised (lines 929-932);
* if the alternates list does not have exactly one entry, `AAFAdapterError`
  is raised (lines 929-932);
* otherwise the sole alternate is transcribed and `result.enabled = False`
  (lines 933-936).

Otherwise the selected child itself is transcribed; a resulting `Gap` raises
`AAFAdapterError` (lines 950-952); the alternates go into side metadata only
(lines 956-962), which this model records as the list of transcribed
alternates without touching the result item. -/
def transcribeSelector (selected : SelComponent)
    (alternates : Option (List SelComponent)) :
    Except PyError (SelResult × List SelResult) :=
  match selected with
  | .filler _ | .scopeReference _ =>
    match alternates with
    | none => .error .typeError
    | some alts =>
      if alts.length ≠ 1 then .error .adapterError
      else
        match alts with
        | [a] =>
          let r := transcribeSelChild a
          .ok ({ r with enabled := false }, [])
        | _ => .error .adapterError
  | .sourceClip l =>
    let r := transcribeSelChild (.sourceClip l)
    if r.isGap then .error .adapterError
    else .ok (r, (alternates.getD []).map transcribeSelChild)

/-! ## Pre-write validation (`aaf_writer.validate_metadata`, lines 265-301)

`validate_metadata` walks every child of the timeline, collects per-kind
metadata checks through the `__check` helper class (lines 1196-1231), and at
the end raises a single `AAFValidationError` whose message joins every
collected error line (lines 299-301).  `_is_considered_gap` (lines 43-64) is
called on every child first and raises `NotSupportedError` for a clip whose
media reference is a generator of a kind other than `"Slug"`.

In the model, a child field of type `Option ℚ` is the value reached by a
`__check` token path, `none` meaning the attribute chain raised (the path
"does not exist"); for the transition metadata existence checks a `Bool`
records presence.  Error messages are modelled as one distinct line per
failed check, tagged with the child's name and the token path. -/

/-- A timeline descendant as seen by `validate_metadata`.  `other` stands for
the remaining descendants (Tracks, Stacks, ...) which contribute no checks. -/
inductive WChild
  | clip (name : String) (rate : Option ℚ) (mediaDurRate : Option ℚ)
      (mediaStartRate : Option ℚ) (generatorKind : Option String)
  | gap (name : String) (rate : Option ℚ)
  | transition (name : String) (rate : Option ℚ) (hasPointList : Bool)
      (hasOpDataDefName : Bool) (hasOpDescription : Bool) (hasOpName : Bool)
      (hasCutPoint : Bool)
  | other (name : String)
deriving Repr, DecidableEq

/-- The two failure modes of `validate_metadata`: the aggregated
`AAFValidationError` carrying every collected violation line, and the
`NotSupportedError` escaping from `_is_considered_gap`. -/
inductive WriteError
  | validation (lines : List String)
  | notSupported
deriving Repr, DecidableEq

/-- The timeline handed to `validate_metadata`: its `duration().rate`
(`none` modelling a raised attribute error) and its relevant descendants in
`find_children()` order. -/
structure WTimeline where
  name : String
  durationRate : Option ℚ
  children : List WChild
deriving Repr, DecidableEq

/-- `__check(obj, path)`: existence of the value at the token path
(aaf_writer.py lines 1202-1221); a missing value contributes one error line. -/
def checkExists (who path : String) (v : Option ℚ) : List String :=
  match v with
  | none => [who ++ " " ++ path ++ " does not exist"]
  | some _ => []

/-- `__check(obj, path).equals(edit_rate)` (aaf_writer.py lines 1202-1231):
a missing value contributes the existence error line; a present value that
differs from the expected one contributes the inequality line (Python compares
the float against `edit_rate`, which may itself be `None`). -/
def checkEquals (who path : String) (v : Option ℚ) (expected : Option ℚ) :
    List String :=
  match v with
  | none => [who ++ " " ++ path ++ " does not exist"]
  | some r =>
    if some r ≠ expected then [who ++ " " ++ path ++ " not equal to expected"]
    else []

/-- Metadata existence check for a transition's required key (modelled with a
presence flag instead of the metadata dictionary). -/
def checkHas (who path : String) (present : Bool) : List String :=
  if present then [] else [who ++ " " ++ path ++ " does not exist"]

/-- `_is_considered_gap` (aaf_writer.py lines 43-64): `Gap`s count as gaps, a
clip with a `"Slug"` generator reference counts as a gap, a clip with any other
generator reference raises `NotSupportedError`. -/
def isConsideredGap : WChild → Except Unit Bool
  | .gap _ _ => .ok true
  | .clip _ _ _ _ (some k) => if k = "Slug" then .ok true else .error ()
  | .clip _ _ _ _ none => .ok false
  | _ => .ok false

/-- The checks contributed by one child (aaf_writer.py lines 272-297).  Note
the Python reassigns `checks` in each `if`, so a `"Slug"` generator clip gets
the `Clip` checks, not the gap check. -/
def childCheckErrors (edit : Option ℚ) : WChild → List String
  | .clip name rate mdr msr _ =>
    checkEquals name "duration().rate" rate edit ++
    checkEquals name "media_reference.available_range.duration.rate" mdr edit ++
    checkEquals name "media_reference.available_range.start_time.rate" msr edit
  | .gap name rate => checkEquals name "duration().rate" rate edit
  | .transition name rate hasPL hasDDN hasDesc hasName hasCP =>
    checkEquals name "duration().rate" rate edit ++
    checkHas name "metadata AAF PointList" hasPL ++
    checkHas name "metadata AAF OperationGroup Operation DataDefinition Name" hasDDN ++
    checkHas name "metadata AAF OperationGroup Operation Description" hasDesc ++
    checkHas name "metadata AAF OperationGroup Operation Name" hasName ++
    checkHas name "metadata AAF CutPoint" hasCP
  | .other _ => []

/-- The error lines collected over the children, stopping with
`NotSupportedError` when `_is_considered_gap` raises. -/
def collectCheckErrors (edit : Option ℚ) :
    List WChild → Except Unit (List String)
  | [] => .ok []
  | c :: rest =>
    match isConsideredGap c with
    | .error _ => .error ()
    | .ok _ =>
      match collectCheckErrors edit rest with
      | .error _ => .error ()
      | .ok ls => .ok (childCheckErrors edit c ++ ls)

/-- Shallow embedding of `validate_metadata` (aaf_writer.py lines 265-301):
the timeline's own rate check seeds the list, every child contributes its
checks, and one aggregated `AAFValidationError` is raised exactly when any
check recorded an error. -/
def validateMetadata (tl : WTimeline) : Except WriteError Unit :=
  let first := checkExists tl.name "duration().rate" tl.durationRate
  let edit := tl.durationRate
  match collectCheckErrors edit tl.children with
  | .error _ => .error .notSupported
  | .ok ls =>
    let all := first ++ ls
    if all = [] then .ok () else .error (.validation all)

/-! ## Adapter hooks (`hooks.py`) -/

/-- The four adapter hook names (hooks.py lines 9-12). -/
def HOOK_PRE_READ_TRANSCRIBE : String := "otio_aaf_pre_read_transcribe"

/-- See `HOOK_PRE_READ_TRANSCRIBE`. -/
def HOOK_POST_READ_TRANSCRIBE : String := "otio_aaf_post_read_transcribe"

/-- See `HOOK_PRE_READ_TRANSCRIBE`. -/
def HOOK_PRE_WRITE_TRANSCRIBE : String := "otio_aaf_pre_write_transcribe"

/-- See `HOOK_PRE_READ_TRANSCRIBE`. -/
def HOOK_POST_WRITE_TRANSCRIBE : String := "otio_aaf_post_write_transcribe"

/-- Model of the external `otio.hooks` plugin registry: the registered hook
names with their callbacks (`otio.hooks.names()` / `otio.hooks.run(...)`).
A hook callback takes the timeline and returns a timeline. -/
structure HookRegistry (τ : Type) where
  hooks : List (String × (τ → τ))

/-- `otio.hooks.names()`: the registered hook names. -/
def HookRegistry.names (r : HookRegistry τ) : List String :=
  r.hooks.map Prod.fst

/-- `otio.hooks.run(hook, tl, extra_args)`: run the callback registered under
`hook` on the timeline (the timeline is returned unchanged when nothing is
registered, which the adapter code guards against anyway). -/
def HookRegistry.run (r : HookRegistry τ) (hook : String) (tl : τ) : τ :=
  match r.hooks.find? (fun p => p.fst = hook) with
  | some p => p.snd tl
  | none => tl

/-- Shallow embedding of `hooks.run_post_read_transcribe_hook`
(hooks.py lines 70-88).  Note that the Python tests
`HOOK_POST_WRITE_TRANSCRIBE in otio.hooks.names()` (line 80) and runs
`otio.hooks.run(HOOK_POST_WRITE_TRANSCRIBE, ...)` (line 85): the *post-write*
name, not the post-read one. -/
def run_post_read_transcribe_hook (r : HookRegistry τ) (timeline : τ) : τ :=
  if HOOK_POST_WRITE_TRANSCRIBE ∈ r.names then
    r.run HOOK_POST_WRITE_TRANSCRIBE timeline
  else
    timeline

/-! ## The structural simplifier (`_simplify`, aaf.py lines 1527-1749)

The tree model: `otio.schema` Clip / Gap / Transition / Track / Stack nodes.
Every node carries the fields the simplifier reads or writes:

* `name`, `kind` (`Track.kind`; OTIO's default is `"Video"`),
* `mediaKind` — the `metadata["AAF"]["MediaKind"]` entry read by
  `_ensure_stack_tracks`,
* `valuableMeta` — the result of `_valuable_metadata` (aaf.py 1415-1419:
  `metadata AAF ClassName == "CompositionMob"` with nonempty `UserComments`);
  the dictionary itself is irrelevant to the simplifier beyond this test,
* `markers`, `effects`, `enabled`, `sourceRange`.

Transitions carry the same record; the functions below only consult the
fields the Python reads on them (`isinstance(thing, otio.core.Item)` is false
for a Transition, so e.g. `_has_effects` is false on transitions). -/

/-- A marker (`otio.schema.Marker`) as the simplifier sees it. -/
structure SMarker where
  name : String
  start : ℚ
deriving Repr, DecidableEq

/-- An effect; `isTimeWarp` is the `metadata AAF Operation IsTimeWarp` flag
read by `_has_time_effect` (aaf.py 1429-1434). -/
structure SEffect where
  name : String
  isTimeWarp : Bool
deriving Repr, DecidableEq

/-- `otio.opentime.TimeRange` with start and duration. -/
structure SRange where
  start : ℚ
  dur : ℚ
deriving Repr, DecidableEq

/-- The node fields shared by every tree node (see the section comment). -/
structure ItemData where
  name : String
  kind : String
  mediaKind : Option String
  valuableMeta : Bool
  markers : List SMarker
  effects : List SEffect
  enabled : Bool
  sourceRange : Option SRange
deriving Repr, DecidableEq

/-- Default-constructed node fields (`otio.schema.Track()`). -/
def ItemData.default : ItemData :=
  ⟨"", "Video", none, false, [], [], true, none⟩

/-- The OTIO tree node kinds the simplifier distinguishes. -/
inductive OTItem
  | clip (d : ItemData)
  | gap (d : ItemData)
  | transition (d : ItemData)
  | track (d : ItemData) (children : List OTItem)
  | stack (d : ItemData) (children : List OTItem)
deriving Repr

/-- The node's field record. -/
def OTItem.data : OTItem → ItemData
  | .clip d | .gap d | .transition d | .track d _ | .stack d _ => d

/-- The node's ordered children (empty for non-compositions). -/
def OTItem.children : OTItem → List OTItem
  | .track _ ch | .stack _ ch => ch
  | _ => []

/-- `type(thing) is otio.schema.Track`. -/
def OTItem.isTrack : OTItem → Bool
  | .track _ _ => true
  | _ => false

/-- `type(thing) is otio.schema.Stack`. -/
def OTItem.isStack : OTItem → Bool
  | .stack _ _ => true
  | _ => false

/-- `isinstance(thing, otio.schema.Transition)`. -/
def OTItem.isTransition : OTItem → Bool
  | .transition _ => true
  | _ => false

/-- `isinstance(thing, otio.core.Composition)`: Track or Stack. -/
def OTItem.isComposition : OTItem → Bool
  | .track _ _ | .stack _ _ => true
  | _ => false

/-- `isinstance(thing, otio.core.Item)`: everything except Transition. -/
def OTItem.isItem : OTItem → Bool
  | .transition _ => false
  | _ => true

/-- Rebuild a node with new fields. -/
def OTItem.withData (t : OTItem) (d : ItemData) : OTItem :=
  match t with
  | .clip _ => .clip d
  | .gap _ => .gap d
  | .transition _ => .transition d
  | .track _ ch => .track d ch
  | .stack _ ch => .stack d ch

mutual

/-- Structural node count, used as the termination measure of the rewrite
loops (every node counts 1; scalar fields do not count). -/
def osize : OTItem → Nat
  | .clip _ | .gap _ | .transition _ => 1
  | .track _ ch | .stack _ ch => 1 + osizeList ch
/-- See `osize`. -/
def osizeList : List OTItem → Nat
  | [] => 0
  | t :: rest => osize t + osizeList rest

end

/-- `_transcribe_media_kind` (aaf.py 307-314), with OTIO track kinds as
strings (`TrackKind.Video = "Video"`, `TrackKind.Audio = "Audio"`). -/
def transcribeMediaKind (media_kind : String) : String :=
  if media_kind = "Picture" then "Video"
  else if media_kind = "SoundMasterTrack" ∨ media_kind = "Sound" then "Audio"
  else "AAF_" ++ media_kind

/-- `_valuable_metadata` (aaf.py 1415-1419). -/
def valuableMetadata (t : OTItem) : Bool :=
  t.data.valuableMeta

/-- `_has_effects` (aaf.py 1423-1426): only `otio.core.Item`s have effects. -/
def hasEffects (t : OTItem) : Bool :=
  t.isItem && !t.data.effects.isEmpty

/-- `_has_time_effect` (aaf.py 1429-1434). -/
def hasTimeEffect (t : OTItem) : Bool :=
  t.data.effects.any (·.isTimeWarp)

/-- `_has_transitions` (aaf.py 1437-1445): for a Track, whether any direct
child is a Transition; for a Stack, whether any child has a direct Transition
child (`find_children(..., shallow_search=True)`). -/
def hasTransitionsIn (t : OTItem) : Bool :=
  match t with
  | .track _ ch => ch.any OTItem.isTransition
  | .stack _ ch => ch.any fun c => c.children.any OTItem.isTransition
  | _ => false

/-- `_track_item_can_flatten` (aaf.py 1448-1462). -/
def trackItemCanFlatten (t : OTItem) : Bool :=
  if !t.isTrack then false
  else if valuableMetadata t then false
  else if t.children.length = 1 then true
  else if hasEffects t then false
  else if hasTransitionsIn t then false
  else true

/-- `_stack_item_can_be_flatten` (aaf.py 1465-1501). -/
def stackItemCanBeFlatten (t : OTItem) : Bool :=
  if hasEffects t || valuableMetadata t then false
  else
    match t with
    | .stack _ _ => true
    | .track _ [childStack] =>
      childStack.isStack && !(hasEffects childStack || valuableMetadata childStack)
    | _ => false

mutual

/-- `_contains_something_valuable` (aaf.py 1722-1749): an Item carrying
effects or markers is valuable; so is valuable metadata; a composition is
valuable iff some child is; a bare Gap is not; everything else (Clip,
Transition) is presumed valuable. -/
def containsSomethingValuable : OTItem → Bool
  | .clip _ => true
  | .transition d => d.valuableMeta || true
  | .gap d => !d.effects.isEmpty || !d.markers.isEmpty || d.valuableMeta
  | .track d ch =>
    !d.effects.isEmpty || !d.markers.isEmpty || d.valuableMeta ||
      listContainsValuable ch
  | .stack d ch =>
    !d.effects.isEmpty || !d.markers.isEmpty || d.valuableMeta ||
      listContainsValuable ch
/-- See `containsSomethingValuable`. -/
def listContainsValuable : List OTItem → Bool
  | [] => false
  | c :: rest => containsSomethingValuable c || listContainsValuable rest

end

/-- The synthetic Track built by `_ensure_stack_tracks` around a non-Track
child (aaf.py 1403-1412): default Track, kind from the child's
`metadata AAF MediaKind` when present, name from the child. -/
def wrapInTrack (c : OTItem) : OTItem :=
  let kind :=
    match c.data.mediaKind with
    | some mk => transcribeMediaKind mk
    | none => ItemData.default.kind
  .track { ItemData.default with kind := kind, name := c.data.name } [c]

/-- `_ensure_stack_tracks` (aaf.py 1393-1412): inside a Stack, every child
that is not a Track is wrapped in a synthetic Track at its position. -/
def ensureStackTracks (t : OTItem) : OTItem :=
  match t with
  | .stack d ch => .stack d (ch.map fun c => if c.isTrack then c else wrapInTrack c)
  | _ => t

/-- `TimeRange.contains(t)`. -/
def rangeContains (r : SRange) (t : ℚ) : Bool :=
  r.start ≤ t ∧ t < r.start + r.dur

/-- `_trim_markers` (aaf.py 1504-1513): drop the markers outside the item's
own source range.  (With no source range set the Python would raise; the
simplifier only calls this on freshly trimmed items, which have one.) -/
def trimMarkersItem (t : OTItem) : OTItem :=
  match t.data.sourceRange with
  | none => t
  | some r =>
    t.withData { t.data with markers := t.data.markers.filter fun m => rangeContains r m.start }

/-- `_fix_time_effect_duration` (aaf.py 1516-1524): keep the flattened
container's duration on a time-warped item. -/
def fixTimeEffectDuration (t : OTItem) (source_range : Option SRange) : OTItem :=
  match source_range with
  | none => t
  | some r =>
    match t.data.sourceRange with
    | none => t
    | some own => t.withData { t.data with sourceRange := some ⟨own.start, r.dur⟩ }

mutual

/-- The duration an item contributes to its parent track, as the external
OTIO range arithmetic computes it: the source-range duration when set,
`none` when it cannot be computed (no media reference is modelled), and 0
for a Transition (transitions overlap their neighbours).  This models the
external `opentimelineio` library, which is outside this repository. -/
def itemDurQ : OTItem → Option ℚ
  | .transition _ => some 0
  | .clip d | .gap d =>
    match d.sourceRange with
    | some r => some r.dur
    | none => none
  | .track d ch =>
    match d.sourceRange with
    | some r => some r.dur
    | none => durSumQ ch
  | .stack d ch =>
    match d.sourceRange with
    | some r => some r.dur
    | none => durMaxQ ch
/-- Sum of the children's durations (a Track lays children end to end);
`none` propagates a non-computable child. -/
def durSumQ : List OTItem → Option ℚ
  | [] => some 0
  | c :: rest =>
    match itemDurQ c, durSumQ rest with
    | some a, some b => some (a + b)
    | _, _ => none
/-- Maximum of the children's durations (a Stack overlays its children). -/
def durMaxQ : List OTItem → Option ℚ
  | [] => some 0
  | c :: rest =>
    match itemDurQ c, durMaxQ rest with
    | some a, some b => some (max a b)
    | _, _ => none

end

/-- `Item.trimmed_range()` as the external OTIO library computes it: the
source range when set, otherwise the available range — `⟨0, duration⟩` for a
composition, not computable for a leaf without a modelled media reference.
`none` models `CannotComputeAvailableRangeError`. -/
def trimmedRangeOf (t : OTItem) : Option SRange :=
  match t.data.sourceRange with
  | some r => some r
  | none =>
    match t with
    | .track _ ch => (durSumQ ch).map (⟨0, ·⟩)
    | .stack _ ch => (durMaxQ ch).map (⟨0, ·⟩)
    | _ => none

/-- One child of a track being trimmed to `[rStart, rStart + rDur)` by the
external `otio.algorithms.track_trimmed_to_range`: `pos` is where the child
starts inside the track.  Children wholly outside the window are dropped;
boundary children get their source range cut to the overlap.  Transitions
are kept untouched (they occupy no duration of their own).  This models the
external OTIO algorithm, outside this repository. -/
def trimItems (rStart rDur : ℚ) : ℚ → List OTItem → List OTItem
  | _, [] => []
  | pos, it :: rest =>
    match it with
    | .transition _ => it :: trimItems rStart rDur pos rest
    | _ =>
      if pos + (itemDurQ it).getD 0 ≤ rStart ∨ rStart + rDur ≤ pos then
        trimItems rStart rDur (pos + (itemDurQ it).getD 0) rest
      else
        it.withData { it.data with sourceRange := some (SRange.mk
            ((it.data.sourceRange.map (·.start)).getD 0 + max 0 (rStart - pos))
            (min (pos + (itemDurQ it).getD 0) (rStart + rDur) - max pos rStart)) } ::
          trimItems rStart rDur (pos + (itemDurQ it).getD 0) rest

/-- `otio.algorithms.track_trimmed_to_range(track, range)` (external OTIO
algorithm): a copy of the track with children outside the range removed and
boundary children trimmed; the track's own fields are kept. -/
def trackTrimmedToRange (t : OTItem) (r : SRange) : OTItem :=
  match t with
  | .track d ch => .track d (trimItems r.start r.dur 0 ch)
  | _ => t

theorem osize_pos (t : OTItem) : 1 ≤ osize t := by
  cases t <;> simp only [osize] <;> omega

theorem osize_withData (t : OTItem) (d : ItemData) : osize (t.withData d) = osize t := by
  cases t <;> simp [OTItem.withData, osize]

theorem osizeList_children_lt (t : OTItem) : osizeList t.children < osize t := by
  cases t <;> simp only [OTItem.children, osize, osizeList] <;> omega

theorem osizeList_append (a b : List OTItem) :
    osizeList (a ++ b) = osizeList a + osizeList b := by
  induction a with
  | nil => simp [osizeList]
  | cons t rest ih =>
    rw [List.cons_append]
    simp only [osizeList]
    rw [ih]
    omega

theorem osizeList_reverse (l : List OTItem) : osizeList l.reverse = osizeList l := by
  induction l with
  | nil => simp
  | cons t rest ih =>
    rw [List.reverse_cons, osizeList_append, ih]
    simp only [osizeList]
    omega

theorem osizeList_trimItems (rs rd : ℚ) (l : List OTItem) :
    ∀ pos, osizeList (trimItems rs rd pos l) ≤ osizeList l := by
  induction l with
  | nil => intro pos; simp [trimItems]
  | cons it rest ih =>
    intro pos
    match it with
    | .transition d =>
      simp only [trimItems, osizeList]
      have h := ih pos
      omega
    | .clip d | .gap d | .track d ch | .stack d ch =>
      simp only [trimItems, osizeList]
      split
      · exact le_trans (ih _) (Nat.le_add_left _ _)
      · simp only [osizeList, osize_withData]
        exact Nat.add_le_add_left (ih _) _

theorem osize_trackTrimmedToRange (t : OTItem) (r : SRange) :
    osize (trackTrimmedToRange t r) ≤ osize t := by
  cases t <;> simp [trackTrimmedToRange, osize]
  exact osizeList_trimItems _ _ _ _

/-- The child as rebound by `child = track_trimmed_to_range(child,
child.source_range)` when it carries a source range (aaf.py 1568-1570). -/
def trackFlattenChild (cur : OTItem) : OTItem :=
  match cur.data.sourceRange with
  | some r => trackTrimmedToRange cur r
  | none => cur

/-- The grandchild of a flattened single-grandchild container, with the
container's effects appended (aaf.py 1579-1581, `first_item`). -/
def mergedFirstItem (cur1 k : OTItem) : OTItem :=
  k.withData { k.data with effects := k.data.effects ++ cur1.data.effects }

/-- The children spliced into the parent track for one flattened child
(aaf.py 1572-1590): with exactly one grandchild the child's effects move onto
it, and a time-warped grandchild keeps the child's duration. -/
def trackFlattenKids (cur1 : OTItem) : List OTItem :=
  match cur1.children with
  | [k] =>
    [if hasTimeEffect (mergedFirstItem cur1 k) then
        fixTimeEffectDuration (mergedFirstItem cur1 k) cur1.data.sourceRange
      else mergedFirstItem cur1 k]
  | kids => kids

theorem osize_trackFlattenChild (cur : OTItem) :
    osize (trackFlattenChild cur) ≤ osize cur := by
  unfold trackFlattenChild
  split
  · exact osize_trackTrimmedToRange _ _
  · exact le_refl _

theorem osize_fixTimeEffectDuration (t : OTItem) (sr : Option SRange) :
    osize (fixTimeEffectDuration t sr) = osize t := by
  unfold fixTimeEffectDuration
  split
  · rfl
  · split
    · rfl
    · exact osize_withData _ _

theorem osize_mergedFirstItem (cur1 k : OTItem) :
    osize (mergedFirstItem cur1 k) = osize k :=
  osize_withData _ _

theorem osizeList_trackFlattenKids (cur1 : OTItem) :
    osizeList (trackFlattenKids cur1) < osize cur1 := by
  unfold trackFlattenKids
  split
  · rename_i k h
    have hk : osize k + osizeList [] < osize cur1 := by
      have := osizeList_children_lt cur1
      rw [h] at this
      simpa only [osizeList] using this
    simp only [osizeList] at hk ⊢
    split
    · rw [osize_fixTimeEffectDuration, osize_mergedFirstItem]
      omega
    · rw [osize_mergedFirstItem]
      omega
  · exact osizeList_children_lt cur1

theorem loopDecSkip (cur : OTItem) (rest : List OTItem) :
    osizeList rest < osizeList (cur :: rest) := by
  simp only [osizeList]
  have := osize_pos cur
  omega

theorem trackLoopDecSplice (cur : OTItem) (rest : List OTItem) :
    osizeList ((trackFlattenKids (trackFlattenChild cur)).reverse ++ rest) <
      osizeList (cur :: rest) := by
  rw [osizeList_append, osizeList_reverse]
  simp only [osizeList]
  have h1 := osizeList_trackFlattenKids (trackFlattenChild cur)
  have h2 := osize_trackFlattenChild cur
  omega

/-- The outcome of one splice-and-rescan rewrite loop: the rewritten child
list, the markers merged up onto the parent (in merge order), and the AND of
the merged children's `enabled` flags. -/
structure FlattenOut where
  children : List OTItem
  movedMarkers : List SMarker
  enabledAll : Bool
deriving Repr

/-- The child-flattening loop of the Track branch (aaf.py 1560-1601),
processing the parent's children right to left: `todoRev` is the unprocessed
prefix in reverse (head = current index `c`), `done` the processed suffix in
order.  A flattened child's (possibly trimmed) grandchildren are spliced in
at its place and rescanned (`c = c + num - 1`). -/
def trackFlattenLoop (todoRev done : List OTItem) (mk : List SMarker) (en : Bool) :
    FlattenOut :=
  match todoRev with
  | [] => ⟨done, mk, en⟩
  | cur :: rest =>
    if trackItemCanFlatten cur then
      let cur1 := trackFlattenChild cur
      trackFlattenLoop ((trackFlattenKids cur1).reverse ++ rest) done
        (mk ++ cur1.data.markers) (en && cur1.data.enabled)
    else
      trackFlattenLoop rest (cur :: done) mk en
termination_by osizeList todoRev
decreasing_by
  all_goals first
    | exact trackLoopDecSplice _ _
    | exact loopDecSkip _ _

/-- `child = child[0]` for a flattenable single-child Track inside a Stack
(aaf.py 1616-1617); a Stack is its own flattening source. -/
def stackFlattenInner (cur : OTItem) : OTItem :=
  if cur.isTrack then cur.children.headD cur else cur

theorem osizeList_stackFlattenInner (cur : OTItem) :
    osizeList (stackFlattenInner cur).children < osize cur := by
  unfold stackFlattenInner
  by_cases h : cur.isTrack = true
  · rw [if_pos h]
    match cur, h with
    | .clip d, h | .gap d, h | .transition d, h | .stack d ch, h =>
      simp [OTItem.isTrack] at h
    | .track d [], _ =>
      simp [OTItem.children, osize, osizeList]
    | .track d (a :: rest), _ =>
      have ha := osizeList_children_lt a
      have hch : (OTItem.track d (a :: rest)).children = a :: rest := rfl
      rw [hch, List.headD_cons]
      simp only [osize, osizeList]
      omega
  · rw [if_neg h]
    exact osizeList_children_lt cur

theorem stackLoopDecSplice (cur : OTItem) (rest : List OTItem) :
    osizeList ((stackFlattenInner cur).children.reverse ++ rest) <
      osizeList (cur :: rest) := by
  rw [osizeList_append, osizeList_reverse]
  simp only [osizeList]
  have h := osizeList_stackFlattenInner cur
  omega

/-- The Stack-within-Stack flattening loop (aaf.py 1611-1636), right to left
with splice-and-rescan exactly like `trackFlattenLoop`. -/
def stackFlattenLoop (todoRev done : List OTItem) (mk : List SMarker) (en : Bool) :
    FlattenOut :=
  match todoRev with
  | [] => ⟨done, mk, en⟩
  | cur :: rest =>
    if stackItemCanBeFlatten cur then
      let inner := stackFlattenInner cur
      stackFlattenLoop (inner.children.reverse ++ rest) done
        (mk ++ inner.data.markers) (en && inner.data.enabled)
    else
      stackFlattenLoop rest (cur :: done) mk en
termination_by osizeList todoRev
decreasing_by
  all_goals first
    | exact stackLoopDecSplice _ _
    | exact loopDecSkip _ _

theorem decPairTrack (d : ItemData) (ch : List OTItem) :
    2 * osizeList ch + 1 < 2 * osize (OTItem.track d ch) := by
  simp only [osize]
  omega

theorem decPairStack (d : ItemData) (ch : List OTItem) :
    2 * osizeList ch + 1 < 2 * osize (OTItem.stack d ch) := by
  simp only [osize]
  omega

theorem decChildHead (c : OTItem) (rest : List OTItem) :
    2 * osize c < 2 * osizeList (c :: rest) + 1 := by
  simp only [osizeList]
  omega

theorem decChildTail (c : OTItem) (rest : List OTItem) :
    2 * osizeList rest + 1 < 2 * osizeList (c :: rest) + 1 := by
  simp only [osizeList]
  have := osize_pos c
  omega

/-! ### The simplifier proper -/

/-- What `_simplify` can observe of `thing.parent()`: whether the parent is a
Stack, whether there is no parent at all, and whether the grandparent is
`None`.  (`_is_redundant_container`, aaf.py 1706-1710, reads exactly
`type(thing.parent()) is Stack and thing.parent().parent() is None`; the
final root check, line 1687, reads `thing.parent() is None`.) -/
structure SCtx where
  parentIsStack : Bool
  parentIsNone : Bool
  grandparentIsNone : Bool
deriving Repr, DecidableEq

/-- The context of a parentless node (e.g. the timeline's root stack, or a
composition handed to `_simplify` on its own). -/
def noParentCtx : SCtx := ⟨false, true, true⟩

/-- The context the children of `parent` are simplified in. -/
def childCtx (parent : OTItem) (ctx : SCtx) : SCtx :=
  ⟨parent.isStack, false, ctx.parentIsNone⟩

/-- `am_top_level_track` (aaf.py 1706-1710). -/
def amTopLevelTrack (ctx : SCtx) (t : OTItem) : Bool :=
  t.isTrack && ctx.parentIsStack && ctx.grandparentIsNone

/-- `_is_redundant_container` (aaf.py 1693-1719). -/
def isRedundantContainer (ctx : SCtx) (t : OTItem) : Bool :=
  if !t.isComposition then false
  else if t.children.length ≠ 1 then false
  else if valuableMetadata t then false
  else
    !amTopLevelTrack ctx t ||
      (t.isTrack && (t.children.headD t).isTrack)

/-- The redundant-container collapse (aaf.py 1652-1684): a deep copy of the
only child, with the container's disabled state, markers, effects and (when
present) composed source range folded in.  A failing `trimmed_range()` is
caught and the container's own range copied instead (lines 1674-1683). -/
def collapseRedundant (t : OTItem) : OTItem :=
  match t.children with
  | [] => t
  | c :: _ =>
    let r0 := if !t.data.enabled then c.withData { c.data with enabled := false } else c
    let r1 := r0.withData { r0.data with
      markers := r0.data.markers ++ t.data.markers
      effects := r0.data.effects ++ t.data.effects }
    match t.data.sourceRange with
    | none => r1
    | some tsr =>
      match (match r1.data.sourceRange with
             | some b => some b
             | none => trimmedRangeOf r1) with
      | some b => r1.withData { r1.data with sourceRange := some ⟨b.start + tsr.start, tsr.dur⟩ }
      | none => r1.withData { r1.data with sourceRange := some tsr }

/-- The Stack trim step (aaf.py 1639-1649): when the stack has a source range
and none of its tracks has a direct transition child, every track is trimmed
to that range, each trimmed item drops its out-of-range markers, and the
stack's range is reset to start 0. -/
def stackTrim (t : OTItem) : OTItem :=
  match t with
  | .stack d ch =>
    match d.sourceRange with
    | none => t
    | some r =>
      if hasTransitionsIn t then t
      else
        let ch1 := ch.map fun tr =>
          match trackTrimmedToRange tr r with
          | .track td tch => .track td (tch.map trimMarkersItem)
          | other => other
        .stack { d with sourceRange := some ⟨0, r.dur⟩ } ch1
  | _ => t

/-- The tail `_simplify` applies to every composition after its branch
(aaf.py 1651-1690): collapse a redundant container and return the copy (the
in-place object is left as it was), else wrap the children of a parentless
Stack in tracks. -/
def simplifyFinish (ctx : SCtx) (M : OTItem) : OTItem :=
  if isRedundantContainer ctx M then collapseRedundant M
  else if M.isStack && ctx.parentIsNone then ensureStackTracks M
  else M

mutual

/-- Shallow embedding of `_simplify` (aaf.py 1527-1690) on one node, in
context `ctx`.  The pair is (the value `_simplify` returns, the state of the
node object itself after the in-place rewrites): the two differ exactly when
the node is collapsed as a redundant container, where the returned deep copy
replaces the node at the call site but the mutated node survives wherever the
caller ignores the return value (the Timeline branch, lines 1542-1551).

An empty composition is falsy in Python, so `if not thing: return thing`
(line 1531) returns it untouched.  Clips, Gaps and Transitions fall through
the dispatch unchanged. -/
def simplifyPair (ctx : SCtx) (t : OTItem) : OTItem × OTItem :=
  match t with
  | .clip _ | .gap _ | .transition _ => (t, t)
  | .track d ch =>
    if ch.isEmpty then (t, t)
    else
      let ch1 := simplifyChildren ⟨false, false, ctx.parentIsNone⟩ ch
      let out := trackFlattenLoop ch1.reverse [] [] true
      let M := OTItem.track
        { d with markers := d.markers ++ out.movedMarkers
                 enabled := d.enabled && out.enabledAll } out.children
      (simplifyFinish ctx M, M)
  | .stack d ch =>
    if ch.isEmpty then (t, t)
    else
      let ch1 := simplifyChildren ⟨true, false, ctx.parentIsNone⟩ ch
      let kept := ch1.filter containsSomethingValuable
      let out := stackFlattenLoop kept.reverse [] [] true
      let M0 := OTItem.stack
        { d with markers := d.markers ++ out.movedMarkers
                 enabled := d.enabled && out.enabledAll } out.children
      let M := stackTrim (ensureStackTracks M0)
      (simplifyFinish ctx M, M)
termination_by 2 * osize t
decreasing_by
  all_goals first
    | exact decPairTrack _ _
    | exact decPairStack _ _

/-- `thing[c] = _simplify(child)` over the children (aaf.py 1553-1556). -/
def simplifyChildren (ctx : SCtx) : List OTItem → List OTItem
  | [] => []
  | c :: rest => (simplifyPair ctx c).1 :: simplifyChildren ctx rest
termination_by l => 2 * osizeList l + 1
decreasing_by
  all_goals first
    | exact decChildHead _ _
    | exact decChildTail _ _

end

/-- The value `_simplify` returns for a node. -/
def simplifyItem (ctx : SCtx) (t : OTItem) : OTItem :=
  (simplifyPair ctx t).1

/-- `otio.schema.Timeline` with its root stack of tracks. -/
structure OTimeline where
  name : String
  tracks : OTItem
deriving Repr

/-- The Timeline branch of `_simplify` (aaf.py 1542-1551): simplify the root
stack; replace `thing.tracks` only when the returned value is itself a Stack,
otherwise keep the (in-place simplified) stack and discard the returned
collapse copy. -/
def simplifyTimeline (tl : OTimeline) : OTimeline :=
  let p := simplifyPair noParentCtx tl.tracks
  if p.1.isStack then { tl with tracks := p.1 }
  else { tl with tracks := p.2 }

/-! ## Marker reattachment (`_attach_markers`, aaf.py lines 1249-1390)

The pass walks every Track of a timeline, and for each marker found on a
track resolves the `(AttachedSlotID, AttachedPhysicalTrackNumber)` key
through a map built from the tracks' own `(SlotID, PhysicalTrackNumber)`
metadata, then moves the marker to the item of the target track overlapping
the marker's time.

The model is a timeline with one flat list of tracks under the root stack
(the `_find_child_at_time` recursion into nested compositions is not needed
by the claims).  Tracks all start at the stack's origin, so a coordinate
transform between a track and the root stack, or between two tracks, is the
identity; the transform into an item subtracts the item's start position.
`child_at_time` / `range_in_parent` are external OTIO library functions,
modelled as a left-to-right scan over the items: an item whose duration is
unknown raises `CannotComputeAvailableRangeError` (modelled by
`Except.error`). -/

/-- A marker: its range start/duration (in its owning track's coordinates)
and its recorded attachment key (aaf.py 880-883). -/
structure MMarker where
  name : String
  start : ℚ
  dur : ℚ
  attachedSlotId : Option ℤ
  attachedTrackNum : Option ℤ
deriving Repr, DecidableEq

/-- A track item as the marker pass sees it: clips and gaps with a duration
(`none` = the trimmed range cannot be computed) owning markers, and
transitions (whose range overlaps the neighbours by the two offsets, and
which cannot own markers — `otio.schema.Transition` has no `markers`). -/
inductive MItem
  | clip (dur : Option ℚ) (markers : List MMarker)
  | gap (dur : Option ℚ) (markers : List MMarker)
  | transition (inOff outOff : ℚ)
deriving Repr, DecidableEq

/-- A track: its `metadata AAF SlotID` / `PhysicalTrackNumber`, its items,
and its own markers. -/
structure MTrack where
  slotId : Option ℤ
  trackNum : Option ℤ
  items : List MItem
  markers : List MMarker
deriving Repr, DecidableEq

/-- The timeline: the tracks of the root stack, and the markers sitting on
the root stack itself (`timeline.tracks`, aaf.py line 1322). -/
structure MTimeline where
  tracks : List MTrack
  stackMarkers : List MMarker
deriving Repr, DecidableEq

/-- The `(slot id, physical track number) → track` map (aaf.py 1288-1298);
tracks without both keys are skipped, later tracks overwrite earlier ones
(dictionary assignment), and tracks are referred to by index. -/
def buildTracksMap : Nat → List MTrack → List ((ℤ × ℤ) × Nat)
  | _, [] => []
  | i, tr :: rest =>
    match tr.slotId, tr.trackNum with
    | some s, some n => buildTracksMap (i + 1) rest ++ [((s, n), i)]
    | _, _ => buildTracksMap (i + 1) rest

/-- Dictionary lookup in the tracks map. -/
def mapLookup (m : List ((ℤ × ℤ) × Nat)) (key : ℤ × ℤ) : Option Nat :=
  (m.find? (fun p => p.1 == key)).map (·.2)

/-- `tracks_map.get((slot_id, track_number))` for a marker's recorded key
(aaf.py 1304-1307): an absent metadata entry never matches. -/
def markerTarget (m : List ((ℤ × ℤ) × Nat)) (mk : MMarker) : Option Nat :=
  match mk.attachedSlotId, mk.attachedTrackNum with
  | some s, some n => mapLookup m (s, n)
  | _, _ => none

/-- Model of the external `Track.child_at_time`: scan the items left to
right accumulating the play position; a clip or gap occupies
`[pos, pos + dur)` and advances the position, a transition overlaps
`[pos - in_offset, pos + out_offset)` without advancing it.  Returns the
first item (index and start position) whose range contains the time;
`Except.error` models `CannotComputeAvailableRangeError` for an item whose
duration cannot be computed. -/
def childAtTime : List MItem → Nat → ℚ → ℚ → Except Unit (Option (Nat × ℚ))
  | [], _, _, _ => .ok none
  | it :: rest, i, pos, t =>
    match it with
    | .clip none _ | .gap none _ => .error ()
    | .clip (some dur) _ | .gap (some dur) _ =>
      if pos ≤ t ∧ t < pos + dur then .ok (some (i, pos))
      else childAtTime rest (i + 1) (pos + dur) t
    | .transition inO outO =>
      if pos - inO ≤ t ∧ t < pos + outO then .ok (some (i, pos))
      else childAtTime rest (i + 1) pos t

/-- The `range_in_parent()` of the item at an index: `(start, duration)` in
track coordinates, `none` for an index past the end (Python's `IndexError`),
`Except.error` when an earlier duration cannot be computed. -/
def itemRangeAt : List MItem → Nat → ℚ → Except Unit (Option (ℚ × ℚ))
  | [], _, _ => .ok none
  | it :: rest, i, pos =>
    match it with
    | .clip none _ | .gap none _ => .error ()
    | .clip (some dur) _ | .gap (some dur) _ =>
      match i with
      | 0 => .ok (some (pos, dur))
      | i' + 1 => itemRangeAt rest i' (pos + dur)
    | .transition inO outO =>
      match i with
      | 0 => .ok (some (pos - inO, inO + outO))
      | i' + 1 => itemRangeAt rest i' pos

/-- The failures the marker pass can hit:
`CannotComputeAvailableRangeError` — caught by `_attach_markers` when raised
inside the target-resolution `try` (aaf.py 1335-1376), but *uncaught* when
raised by the root-stack transform of the missing-target branch, which sits
before that `try` (lines 1325-1327) — and the `IndexError` of
`parent[index + 1]` (line 1265) for a transition at the very end of a
track, which nothing catches. -/
inductive ResolveErr
  | cannotCompute
  | indexError
deriving Repr, DecidableEq

/-- Shallow embedding of `_find_child_at_time` (aaf.py 1249-1272) on a flat
track: `child_at_time`, then, if that found a Transition, the flanking
sibling whose local range contains the time — `parent[index - 1]` (which is
Python's `parent[-1]`, the *last* item, when the transition is first) if its
range contains the time, else `parent[index + 1]`. -/
def findChildAtTime (items : List MItem) (t : ℚ) :
    Except ResolveErr (Option (Nat × ℚ)) :=
  match childAtTime items 0 0 t with
  | .error _ => .error .cannotCompute
  | .ok none => .ok none
  | .ok (some (i, pos)) =>
    match items[i]? with
    | some (.transition _ _) =>
      match itemRangeAt items (if i = 0 then items.length - 1 else i - 1) 0 with
      | .error _ => .error .cannotCompute
      | .ok none => .error .indexError
      | .ok (some (bs, bd)) =>
        if bs ≤ t ∧ t < bs + bd then .ok (some (if i = 0 then items.length - 1 else i - 1, bs))
        else
          match itemRangeAt items (i + 1) 0 with
          | .error _ => .error .cannotCompute
          | .ok none => .error .indexError
          | .ok (some (ps, _)) => .ok (some (i + 1, ps))
    | _ => .ok (some (i, pos))

/-- Append a marker to an item's marker list (only clips and gaps can own
markers). -/
def addMarkerToItem (m : MMarker) : MItem → MItem
  | .clip d ms => .clip d (ms ++ [m])
  | .gap d ms => .gap d (ms ++ [m])
  | .transition a b => .transition a b

/-- Rewrite the track at an index. -/
def modifyTrack : List MTrack → Nat → (MTrack → MTrack) → List MTrack
  | [], _, _ => []
  | tr :: rest, 0, f => f tr :: rest
  | tr :: rest, j + 1, f => tr :: modifyTrack rest j f

/-- Rewrite the item at an index. -/
def modifyItem : List MItem → Nat → (MItem → MItem) → List MItem
  | [], _, _ => []
  | it :: rest, 0, f => f it :: rest
  | it :: rest, i + 1, f => it :: modifyItem rest i f

/-- Whether the resolved item can carry markers
(`hasattr(target_item, 'markers')`, aaf.py 1339). -/
def itemCanHaveMarkers : MItem → Bool
  | .transition _ _ => false
  | _ => true

/-- Whether an item's contribution to its track's available range can be
computed (a `none` duration models a clip whose media reference has no
available range, the `CannotComputeAvailableRangeError` source); transitions
contribute no duration of their own. -/
def itemDurComputable : MItem → Bool
  | .clip none _ | .gap none _ => false
  | _ => true

/-- Whether `track.transformed_time(t, other)` can be evaluated from the
track at `idx`: every hop out of the track evaluates the track's trimmed
range, which sums every item's duration, so a single uncomputable item makes
the transform raise `CannotComputeAvailableRangeError`.  (The pass only ever
asks this of a live track index.) -/
def trackRangesComputable (tl : MTimeline) (idx : Nat) : Bool :=
  match tl.tracks[idx]? with
  | some tr => tr.items.all itemDurComputable
  | none => true

/-- One marker being processed by `_attach_markers` (aaf.py 1303-1388),
`curIdx` being the track the marker was found on:

* the marker is first removed from its track (line 1310);
* no target track for its key: the marker goes onto the timeline's root
  stack (lines 1313-1332) — but the transform into the root stack,
  `current_track.transformed_time(..., timeline.tracks)` (lines 1325-1327),
  sits *before* the `try` of line 1335, so when the originating track's
  ranges cannot be computed it raises an *uncaught*
  `CannotComputeAvailableRangeError`; when it can be evaluated its value is
  the identity here (tracks start at the stack's origin);
* a target track whose resolution raises
  `CannotComputeAvailableRangeError`: caught, and the marker goes onto the
  *target* track with its range untouched (lines 1361-1376);
* a resolved item that cannot carry markers (or none at all): the marker
  goes onto the *target* track, range transformed by the identity
  (lines 1339-1349);
* a resolved clip or gap: the rebasing transform (lines 1351-1355, inside
  the `try`) walks through the originating track and the target track, so
  it raises — caught, marker onto the *target* track — unless both tracks'
  ranges are computable; then the marker is attached to the item with its
  start rebased (lines 1356-1359, 1379);
* the uncaught `IndexError` of `_find_child_at_time` aborts the pass.

`removeMarkerFromTrack` is `current_track.markers.remove(marker)`. -/
def removeMarkerFromTrack (tl : MTimeline) (curIdx : Nat) (m : MMarker) : MTimeline :=
  { tl with tracks := modifyTrack tl.tracks curIdx fun tr => { tr with markers := tr.markers.erase m } }

/-- Append a marker to the markers of the track at `j` (the "leave it on the
target track" outcome). -/
def addMarkerToTrack (tl : MTimeline) (j : Nat) (m : MMarker) : MTimeline :=
  { tl with tracks := modifyTrack tl.tracks j fun tr => { tr with markers := tr.markers ++ [m] } }

/-- Attach a marker to the item at `(track j, item i)`. -/
def addMarkerAt (tl : MTimeline) (j i : Nat) (m : MMarker) : MTimeline :=
  { tl with tracks := modifyTrack tl.tracks j fun tr => { tr with items := modifyItem tr.items i (addMarkerToItem m) } }

/-- One marker processed by `_attach_markers` (aaf.py 1303-1388); see the
case list above `removeMarkerFromTrack`. -/
def processMarker (map : List ((ℤ × ℤ) × Nat)) (tl : MTimeline) (curIdx : Nat)
    (m : MMarker) : Except ResolveErr MTimeline :=
  let tl1 := removeMarkerFromTrack tl curIdx m
  match markerTarget map m with
  | none =>
    if trackRangesComputable tl1 curIdx then
      .ok { tl1 with stackMarkers := tl1.stackMarkers ++ [m] }
    else .error .cannotCompute
  | some j =>
    match tl1.tracks[j]? with
    | none => .ok tl1
    | some tgt =>
      match findChildAtTime tgt.items m.start with
      | .error .indexError => .error .indexError
      | .error .cannotCompute => .ok (addMarkerToTrack tl1 j m)
      | .ok none => .ok (addMarkerToTrack tl1 j m)
      | .ok (some (i, pos)) =>
        match tgt.items[i]? with
        | none => .ok tl1
        | some it =>
          if itemCanHaveMarkers it && trackRangesComputable tl1 curIdx &&
              tgt.items.all itemDurComputable then
            .ok (addMarkerAt tl1 j i { m with start := m.start - pos })
          else
            .ok (addMarkerToTrack tl1 j m)

/-- Process, in order, the snapshot of a track's markers
(`for marker in list(current_track.markers)`, aaf.py 1303). -/
def processMarkerList (map : List ((ℤ × ℤ) × Nat)) (tl : MTimeline) (curIdx : Nat) :
    List MMarker → Except ResolveErr MTimeline
  | [] => .ok tl
  | m :: rest =>
    match processMarker map tl curIdx m with
    | .error e => .error e
    | .ok tl2 => processMarkerList map tl2 curIdx rest

/-- Walk the tracks in order; at each track take the snapshot of its markers
as they stand *now* (markers moved onto a later track by an earlier step get
processed again when that track's turn comes, as in the Python iteration). -/
def attachLoop (map : List ((ℤ × ℤ) × Nat)) (tl : MTimeline) (i : Nat) :
    Nat → Except ResolveErr MTimeline
  | 0 => .ok tl
  | n + 1 =>
    match tl.tracks[i]? with
    | none => .ok tl
    | some tr =>
      match processMarkerList map tl i tr.markers with
      | .error e => .error e
      | .ok tl2 => attachLoop map tl2 (i + 1) n

/-- Shallow embedding of `_attach_markers` (aaf.py 1275-1390) on one
timeline. -/
def attachMarkers (tl : MTimeline) : Except ResolveErr MTimeline :=
  attachLoop (buildTracksMap 0 tl.tracks) tl 0 tl.tracks.length

/-- Markers owned by one item. -/
def itemMarkerCount : MItem → Nat
  | .clip _ ms | .gap _ ms => ms.length
  | .transition _ _ => 0

/-- Markers of a track: its own plus its items'. -/
def trackMarkerCount (tr : MTrack) : Nat :=
  tr.markers.length + (tr.items.map itemMarkerCount).sum

/-- Every marker of the timeline, wherever it sits. -/
def timelineMarkerCount (tl : MTimeline) : Nat :=
  tl.stackMarkers.length + (tl.tracks.map trackMarkerCount).sum

/-! ## Concrete instances used by the theorems below -/

/-- A default clip node. -/
def plainClip : OTItem := .clip ItemData.default

/-- `Stack[Track[Clip]]` handed to `_simplify` on its own (no parent). -/
def bareStackTrackClip : OTItem :=
  .stack ItemData.default [.track ItemData.default [plainClip]]

/-- A timeline whose root stack is `Track[Stack[Track[Clip]]]`. -/
def tlTrackStackTrackClip : OTimeline :=
  ⟨"tl", .stack ItemData.default [.track ItemData.default
    [.stack ItemData.default [.track ItemData.default [plainClip]]]]⟩

/-- A timeline whose root stack is `Track[Stack[Track[Track[Clip]]]]`. -/
def tlTrackStackTrackTrackClip : OTimeline :=
  ⟨"tl", .stack ItemData.default [.track ItemData.default
    [.stack ItemData.default [.track ItemData.default
      [.track ItemData.default [plainClip]]]]]⟩

/-- The complete list of violation lines of a timeline, collected with no
short-circuiting by construction: the timeline's own rate check followed by
every child's checks in order. -/
def allViolationLines (tl : WTimeline) : List String :=
  checkExists tl.name "duration().rate" tl.durationRate ++
    (tl.children.map (childCheckErrors tl.durationRate)).flatten

/-- A timeline that passes every metadata check. -/
def cleanTimeline : WTimeline :=
  ⟨"tl", some 24,
    [.clip "c1" (some 24) (some 24) (some 24) none,
     .gap "g1" (some 24),
     .transition "t1" (some 24) true true true true true]⟩

/-- A timeline with four independent metadata defects on four different
children: a clip at the wrong rate, a gap whose rate cannot be computed, a
transition missing its point list, and a transition missing its cut point. -/
def fourDefectTimeline : WTimeline :=
  ⟨"tl", some 24,
    [.clip "c1" (some 25) (some 24) (some 24) none,
     .gap "g2" none,
     .transition "t3" (some 24) false true true true true,
     .transition "t4" (some 24) true true true true false]⟩

/-- A marker whose recorded attachment key `(2, 3)` matches no track. -/
def unattachedMarker : MMarker := ⟨"m", 10, 1, some 2, some 3⟩

/-- A timeline with a single track keyed `(1, 1)` carrying
`unattachedMarker`. -/
def markerMissTimeline : MTimeline :=
  ⟨[⟨some 1, some 1, [MItem.clip (some 100) []], [unattachedMarker]⟩], []⟩

/-- A hook registry with a callback registered under the *post-read* name
only (renaming the timeline it is given). -/
def postReadOnlyRegistry : HookRegistry OTimeline :=
  ⟨[(HOOK_POST_READ_TRANSCRIBE, fun tl => { tl with name := tl.name ++ " hooked" })]⟩

/-- A timeline for the hook theorems. -/
def hookTimeline : OTimeline := ⟨"read result", .stack ItemData.default []⟩

/-! ## The theorems -/

/-- **C2.** For every time-warp `OperationGroup` whose speed-offset parameter
carries exactly 2 control points (with distinct times, without which the
Python computation raises `ZeroDivisionError`), the derived effect's
`time_scalar` equals the closed-form slope
`(value[1] - value[0]) / (time[1] - time[0])`, regardless of the stored
`SpeedRatio` field. -/
theorem timewarp_two_points_slope (p0 p1 : ControlPoint) (h : p1.time ≠ p0.time)
    (len len2 : ℤ) (r r2 : Option SpeedRatioStr) :
    transcribeLinearTimewarp len r [p0, p1] = transcribeLinearTimewarp len2 r2 [p0, p1] ∧
    ∃ e, transcribeLinearTimewarp len r [p0, p1] = some e ∧
      e.timeScalar = some ((p1.value - p0.value) / (p1.time - p0.time)) := by
  have hs : ∀ (l : ℤ) (sr : Option SpeedRatioStr),
      timewarpTimeScalar l sr [p0, p1] =
        some ((p1.value - p0.value) / (p1.time - p0.time)) := by
    intro l sr
    simp [timewarpTimeScalar, h]
  constructor
  · simp [transcribeLinearTimewarp, hs]
  · refine ⟨if (p1.value - p0.value) / (p1.time - p0.time) = 0 then .freezeFrame
      else .linearTimeWarp ((p1.value - p0.value) / (p1.time - p0.time)), ?_, ?_⟩
    · simp [transcribeLinearTimewarp, hs]
    · split
      · rename_i h0
        simp [OtioTimeEffect.timeScalar, h0]
      · simp [OtioTimeEffect.timeScalar]

/-- Witness for `timewarp_two_points_slope` at the spec's concrete instance:
control points `(t0 = 0, v0 = 0)` and `(t1 = 99/100, v1 = 1)` give the
scalar `1 / (99/100)`, whatever the stored ratio says. -/
theorem timewarp_two_points_slope_witness :
    transcribeLinearTimewarp 42 (some (.intStr 5)) [⟨0, 0⟩, ⟨99/100, 1⟩] =
      transcribeLinearTimewarp 7 none [⟨0, 0⟩, ⟨99/100, 1⟩] ∧
    ∃ e, transcribeLinearTimewarp 42 (some (.intStr 5)) [⟨0, 0⟩, ⟨99/100, 1⟩] = some e ∧
      e.timeScalar = some (1 / (99 / 100)) := by
  have h := timewarp_two_points_slope ⟨0, 0⟩ ⟨99/100, 1⟩ (by norm_num) 42 7
    (some (.intStr 5)) none
  refine ⟨h.1, ?_⟩
  obtain ⟨e, he, hsc⟩ := h.2
  refine ⟨e, he, ?_⟩
  rw [hsc]
  norm_num

/-- **C3.** For a time-warp `OperationGroup` with no usable control points
(at most one point), the stored ratio string decides the scalar: a string
equal to the clip's own length gives the freeze-frame variant
(`time_scalar = 0`); a fractional string `"n/d"` (with `n ≠ 0`; `n = 0`
raises in Python) gives `time_scalar = d/n`; any other integer string `"n"`
(with `n ≠ 0`) gives `time_scalar = 1/n`; and no input whatsoever produces a
generic `LinearTimeWarp` with scalar exactly 0 — a zero scalar always
becomes the `FreezeFrame` variant. -/
theorem timewarp_ratio_parse (len : ℤ) (points : List ControlPoint)
    (hp : points.length ≤ 1) :
    transcribeLinearTimewarp len (some (.intStr len)) points = some .freezeFrame ∧
    (∀ num den : ℤ, num ≠ 0 →
      (transcribeLinearTimewarp len (some (.fracStr num den)) points).bind
        OtioTimeEffect.timeScalar = some ((den : ℚ) / (num : ℚ))) ∧
    (∀ n : ℤ, n ≠ len → n ≠ 0 →
      transcribeLinearTimewarp len (some (.intStr n)) points =
        some (.linearTimeWarp (1 / (n : ℚ)))) ∧
    (∀ (l : ℤ) (r : Option SpeedRatioStr) (pts : List ControlPoint),
      transcribeLinearTimewarp l r pts ≠ some (.linearTimeWarp 0)) := by
  have hzero : ∀ (l : ℤ) (r : Option SpeedRatioStr) (pts : List ControlPoint),
      transcribeLinearTimewarp l r pts ≠ some (.linearTimeWarp 0) := by
    intro l r pts
    unfold transcribeLinearTimewarp
    split
    · simp
    · cases htw : timewarpTimeScalar l r pts with
      | none => simp
      | some s =>
        simp only [Option.map_some']
        split
        · simp
        · rename_i hne
          simp
          intro hcontra
          exact hne hcontra
  have hcases : points = [] ∨ ∃ p, points = [p] := by
    match points, hp with
    | [], _ => exact Or.inl rfl
    | [p], _ => exact Or.inr ⟨p, rfl⟩
  have main : ∀ pts : List ControlPoint, (pts = [] ∨ ∃ p, pts = [p]) →
      transcribeLinearTimewarp len (some (.intStr len)) pts = some .freezeFrame ∧
      (∀ num den : ℤ, num ≠ 0 →
        (transcribeLinearTimewarp len (some (.fracStr num den)) pts).bind
          OtioTimeEffect.timeScalar = some ((den : ℚ) / (num : ℚ))) ∧
      (∀ n : ℤ, n ≠ len → n ≠ 0 →
        transcribeLinearTimewarp len (some (.intStr n)) pts =
          some (.linearTimeWarp (1 / (n : ℚ)))) := by
    rintro pts (rfl | ⟨p, rfl⟩) <;>
    · refine ⟨?_, ?_, ?_⟩
      · simp [transcribeLinearTimewarp, timewarpTimeScalar]
      · intro num den hnum
        by_cases hd : (den : ℚ) / (num : ℚ) = 0 <;>
          simp [transcribeLinearTimewarp, timewarpTimeScalar, hnum, hd,
            OtioTimeEffect.timeScalar]
      · intro n hn h0
        have h1 : (1 : ℚ) / (n : ℚ) ≠ 0 := by
          simp [h0]
        simp [transcribeLinearTimewarp, timewarpTimeScalar, hn, h0, h1]
  exact ⟨(main points hcases).1, (main points hcases).2.1, (main points hcases).2.2, hzero⟩

/-- Witness for `timewarp_ratio_parse`: a clip of length 25 with no control
points; ratio `"25"` freezes, ratio `"50/2"` gives scalar `2/50`, ratio
`"5"` gives scalar `1/5`. -/
theorem timewarp_ratio_parse_witness :
    transcribeLinearTimewarp 25 (some (.intStr 25)) [] = some .freezeFrame ∧
    (transcribeLinearTimewarp 25 (some (.fracStr 50 2)) []).bind
      OtioTimeEffect.timeScalar = some ((2 : ℚ) / (50 : ℚ)) ∧
    transcribeLinearTimewarp 25 (some (.intStr 5)) [] =
      some (.linearTimeWarp (1 / (5 : ℚ))) := by
  have h := timewarp_ratio_parse 25 [] (by norm_num)
  exact ⟨h.1, h.2.1 50 2 (by norm_num), h.2.2.1 5 (by norm_num) (by norm_num)⟩

/-- **C10.** A transcribed graph `Transition`'s `in_offset` is the
component's `CutPoint` metadata value (0 when absent) at the slot edit rate,
and `in_offset + out_offset` equals the component's declared length at that
rate. -/
theorem transition_offsets (length : ℤ) (cutPoint : Option ℤ) (edit_rate : ℚ) :
    (transcribeTransition length cutPoint edit_rate).in_offset =
      ⟨((cutPoint.getD 0 : ℤ) : ℚ), edit_rate⟩ ∧
    (transcribeTransition length cutPoint edit_rate).in_offset.value +
      (transcribeTransition length cutPoint edit_rate).out_offset.value = (length : ℚ) ∧
    (transcribeTransition length cutPoint edit_rate).out_offset.rate = edit_rate := by
  refine ⟨rfl, ?_, rfl⟩
  simp only [transcribeTransition]
  push_cast
  ring

/-- **C7** (code bug).  The Selector branch with a `Filler` selected child:
with the `Alternates` property *absent*, the Python evaluates
`len(alternates)` on `None` while building its error message and so raises
`TypeError`, not the `AAFAdapterError` the claim (and the code's own intent)
describes; with a present list of the wrong length it raises
`AAFAdapterError`; with exactly one alternate, that alternate is transcribed
and disabled. -/
theorem selector_absent_alternates_type_error :
    transcribeSelector (.filler 10) none = .error .typeError ∧
    transcribeSelector (.filler 10) (some []) = .error .adapterError ∧
    transcribeSelector (.filler 10) (some [.sourceClip 4, .sourceClip 5]) =
      .error .adapterError ∧
    transcribeSelector (.filler 10) (some [.sourceClip 4]) =
      .ok (⟨false, 4, false⟩, []) := by
  exact ⟨rfl, rfl, rfl, rfl⟩

/-- **C9** (code bug).  `run_post_read_transcribe_hook` tests and runs the
*post-write* hook name (`hooks.py` lines 80-85): a callback registered under
the post-read name `otio_aaf_post_read_transcribe` is never invoked and the
timeline comes back unchanged, although the registered callback would have
changed it. -/
theorem post_read_hook_runs_post_write_name :
    run_post_read_transcribe_hook postReadOnlyRegistry hookTimeline = hookTimeline ∧
    (HOOK_POST_READ_TRANSCRIBE ∈ postReadOnlyRegistry.names ∧
      postReadOnlyRegistry.run HOOK_POST_READ_TRANSCRIBE hookTimeline ≠ hookTimeline) := by
  refine ⟨?_, ?_, ?_⟩
  · simp [run_post_read_transcribe_hook, postReadOnlyRegistry, HookRegistry.names,
      HOOK_POST_WRITE_TRANSCRIBE, HOOK_POST_READ_TRANSCRIBE]
  · simp [postReadOnlyRegistry, HookRegistry.names, HOOK_POST_READ_TRANSCRIBE]
  · simp [postReadOnlyRegistry, HookRegistry.run, HOOK_POST_READ_TRANSCRIBE, hookTimeline]

theorem transcribeMob_cyclic_none :
    ∀ (fuel : Nat) (cache : MobCache), cacheGet cache 0 = none →
      transcribeMob cyclicMobEnv fuel 0 cache = none := by
  intro fuel
  induction fuel with
  | zero => intro cache _; simp [transcribeMob]
  | succ f ih =>
    intro cache h
    have ih2 := ih cache h
    rw [transcribeMob]
    simp only [h, cyclicMobEnv] at ih2 ⊢
    simp [transcribeMobRefs, ih2]

/-- **C1** (counterexample).  The cache insertion happens *after* the
recursion into the mob's children (aaf.py lines 638-639 and 653-663), not
before: on the one-mob graph whose composition mob references itself,
`_transcribe` recurses forever (the model returns `none` for any recursion
budget — here 1000), while the insert-before-recursing procedure the spec
describes terminates. -/
theorem mob_cache_insert_is_after_recursion :
    transcribeMob cyclicMobEnv 1000 0 [] = none ∧
    transcribeMobSpecIns cyclicMobEnv 2 0 [] =
      some (.node 0 [.node 0 []], [(0, .node 0 [.node 0 []]), (0, .node 0 [])]) := by
  constructor
  · exact transcribeMob_cyclic_none 1000 [] rfl
  · simp [transcribeMobSpecIns, transcribeMobRefsSpecIns, cyclicMobEnv, cacheGet,
      cacheInsert]

theorem transcribeMob_cache_sound (env : List Mob) (fuel : Nat) :
    (∀ mobId cache t cache2,
      transcribeMob env fuel mobId cache = some (t, cache2) →
      cacheGet cache2 mobId = some t ∧
      ∀ k v, cacheGet cache k = some v → cacheGet cache2 k = some v) ∧
    (∀ refs cache ts cache2,
      transcribeMobRefs env fuel refs cache = some (ts, cache2) →
      ∀ k v, cacheGet cache k = some v → cacheGet cache2 k = some v) := by
  induction fuel with
  | zero =>
    have hmob : ∀ mobId cache t cache2,
        transcribeMob env 0 mobId cache = some (t, cache2) →
        cacheGet cache2 mobId = some t ∧
        ∀ k v, cacheGet cache k = some v → cacheGet cache2 k = some v := by
      intro mobId cache t cache2 h
      rw [transcribeMob] at h
      exact absurd h (by simp)
    refine ⟨hmob, ?_⟩
    intro refs
    induction refs with
    | nil =>
      intro cache ts cache2 h
      rw [transcribeMobRefs] at h
      simp only [Option.some.injEq, Prod.mk.injEq] at h
      obtain ⟨-, rfl⟩ := h
      exact fun k v hv => hv
    | cons r rest ihr =>
      intro cache ts cache2 h
      rw [transcribeMobRefs] at h
      rw [transcribeMob] at h
      exact absurd h (by simp)
  | succ f ih =>
    obtain ⟨-, ihRefs⟩ := ih
    have hmob : ∀ mobId cache t cache2,
        transcribeMob env (f + 1) mobId cache = some (t, cache2) →
        cacheGet cache2 mobId = some t ∧
        ∀ k v, cacheGet cache k = some v → cacheGet cache2 k = some v := by
      intro mobId cache t cache2 h
      rw [transcribeMob] at h
      cases hc : cacheGet cache mobId with
      | some t0 =>
        simp only [hc, Option.some.injEq, Prod.mk.injEq] at h
        obtain ⟨rfl, rfl⟩ := h
        exact ⟨hc, fun k v hv => hv⟩
      | none =>
        simp only [hc] at h
        cases he : env[mobId]? with
        | none => simp [he] at h
        | some mob =>
          simp only [he] at h
          cases hr : transcribeMobRefs env f mob.childRefs cache with
          | none => simp [hr] at h
          | some p =>
            obtain ⟨kids, c2⟩ := p
            simp only [hr, Option.some.injEq, Prod.mk.injEq] at h
            obtain ⟨rfl, rfl⟩ := h
            constructor
            · simp [cacheGet, cacheInsert]
            · intro k v hv
              have hc2 := ihRefs mob.childRefs cache kids c2 hr k v hv
              by_cases hk : k = mobId
              · subst hk
                rw [hc] at hv
                exact absurd hv (by simp)
              · simpa [cacheGet, cacheInsert, Ne.symm hk] using hc2
    refine ⟨hmob, ?_⟩
    intro refs
    induction refs with
    | nil =>
      intro cache ts cache2 h
      rw [transcribeMobRefs] at h
      simp only [Option.some.injEq, Prod.mk.injEq] at h
      obtain ⟨-, rfl⟩ := h
      exact fun k v hv => hv
    | cons r rest ihr =>
      intro cache ts cache2 h
      rw [transcribeMobRefs] at h
      cases h1 : transcribeMob env (f + 1) r cache with
      | none => simp [h1] at h
      | some p1 =>
        obtain ⟨t1, c1⟩ := p1
        simp only [h1] at h
        cases h2 : transcribeMobRefs env (f + 1) rest c1 with
        | none => simp [h2] at h
        | some p2 =>
          obtain ⟨ts2, c2⟩ := p2
          simp only [h2, Option.some.injEq, Prod.mk.injEq] at h
          obtain ⟨-, rfl⟩ := h
          intro k v hv
          exact ihr c1 ts2 c2 h2 k v ((hmob r cache t1 c1 h1).2 k v hv)

theorem modifyTrack_length (tracks : List MTrack) :
    ∀ (j : Nat) (f : MTrack → MTrack), (modifyTrack tracks j f).length = tracks.length := by
  induction tracks with
  | nil => intro j f; rfl
  | cons tr rest ih =>
    intro j f
    cases j with
    | zero => rfl
    | succ j' => simp [modifyTrack, ih j' f]

theorem modifyTrack_getElem_self (tracks : List MTrack) :
    ∀ (j : Nat) (f : MTrack → MTrack),
      (modifyTrack tracks j f)[j]? = (tracks[j]?).map f := by
  induction tracks with
  | nil => intro j f; cases j <;> rfl
  | cons tr rest ih =>
    intro j f
    cases j with
    | zero => simp [modifyTrack]
    | succ j' => simpa [modifyTrack] using ih j' f

theorem modifyTrack_map_sum (g : MTrack → Nat) (tracks : List MTrack) :
    ∀ (j : Nat) (f : MTrack → MTrack) (tr : MTrack), tracks[j]? = some tr →
      ((modifyTrack tracks j f).map g).sum + g tr = (tracks.map g).sum + g (f tr) := by
  induction tracks with
  | nil => intro j f tr h; simp at h
  | cons t0 rest ih =>
    intro j f tr h
    cases j with
    | zero =>
      simp only [List.getElem?_cons_zero, Option.some.injEq] at h
      subst h
      simp [modifyTrack]
      omega
    | succ j' =>
      simp only [List.getElem?_cons_succ] at h
      have := ih j' f tr h
      simp [modifyTrack]
      omega

theorem modifyItem_map_sum (g : MItem → Nat) (items : List MItem) :
    ∀ (i : Nat) (f : MItem → MItem) (it : MItem), items[i]? = some it →
      ((modifyItem items i f).map g).sum + g it = (items.map g).sum + g (f it) := by
  induction items with
  | nil => intro i f it h; simp at h
  | cons t0 rest ih =>
    intro i f it h
    cases i with
    | zero =>
      simp only [List.getElem?_cons_zero, Option.some.injEq] at h
      subst h
      simp [modifyItem]
      omega
    | succ i' =>
      simp only [List.getElem?_cons_succ] at h
      have := ih i' f it h
      simp [modifyItem]
      omega

theorem childAtTime_index_lt (items : List MItem) :
    ∀ (i0 : Nat) (pos t : ℚ) (i : Nat) (p : ℚ),
      childAtTime items i0 pos t = .ok (some (i, p)) → i < i0 + items.length := by
  induction items with
  | nil => intro i0 pos t i p h; simp [childAtTime] at h
  | cons it rest ih =>
    intro i0 pos t i p h
    match it with
    | .clip none ms | .gap none ms => simp [childAtTime] at h
    | .clip (some dur) ms | .gap (some dur) ms =>
      rw [childAtTime] at h
      split at h
      · simp only [Except.ok.injEq, Option.some.injEq, Prod.mk.injEq] at h
        obtain ⟨rfl, -⟩ := h
        simp only [List.length_cons]
        omega
      · have := ih (i0 + 1) (pos + dur) t i p h
        simp only [List.length_cons]
        omega
    | .transition a b =>
      rw [childAtTime] at h
      split at h
      · simp only [Except.ok.injEq, Option.some.injEq, Prod.mk.injEq] at h
        obtain ⟨rfl, -⟩ := h
        simp only [List.length_cons]
        omega
      · have := ih (i0 + 1) pos t i p h
        simp only [List.length_cons]
        omega

theorem itemRangeAt_index_lt (items : List MItem) :
    ∀ (i : Nat) (pos : ℚ) (r : ℚ × ℚ),
      itemRangeAt items i pos = .ok (some r) → i < items.length := by
  induction items with
  | nil => intro i pos r h; simp [itemRangeAt] at h
  | cons it rest ih =>
    intro i pos r h
    cases i with
    | zero => simp only [List.length_cons]; omega
    | succ i' =>
      simp only [List.length_cons]
      match it, h with
      | .clip none ms, h => simp [itemRangeAt] at h
      | .gap none ms, h => simp [itemRangeAt] at h
      | .clip (some dur) ms, h =>
        simp only [itemRangeAt] at h
        have := ih i' (pos + dur) r h
        omega
      | .gap (some dur) ms, h =>
        simp only [itemRangeAt] at h
        have := ih i' (pos + dur) r h
        omega
      | .transition a b, h =>
        simp only [itemRangeAt] at h
        have := ih i' pos r h
        omega

theorem findChildAtTime_index_lt (items : List MItem) (t : ℚ) (i : Nat) (p : ℚ) :
    findChildAtTime items t = .ok (some (i, p)) → i < items.length := by
  intro h
  rw [findChildAtTime] at h
  cases hc : childAtTime items 0 0 t with
  | error e => simp [hc] at h
  | ok o =>
    cases o with
    | none => simp [hc] at h
    | some q =>
      obtain ⟨i1, p1⟩ := q
      have hi1 : i1 < items.length := by
        have := childAtTime_index_lt items 0 0 t i1 p1 hc
        omega
      simp only [hc] at h
      cases hit : items[i1]? with
      | none =>
        rw [hit] at h
        simp only [Except.ok.injEq, Option.some.injEq, Prod.mk.injEq] at h
        obtain ⟨rfl, -⟩ := h
        exact hi1
      | some it =>
        rw [hit] at h
        match it with
        | .clip d ms | .gap d ms =>
          simp only [Except.ok.injEq, Option.some.injEq, Prod.mk.injEq] at h
          obtain ⟨rfl, -⟩ := h
          exact hi1
        | .transition a b =>
          cases hb : itemRangeAt items (if i1 = 0 then items.length - 1 else i1 - 1) 0 with
          | error e => simp [hb] at h
          | ok ob =>
            cases ob with
            | none => simp [hb] at h
            | some br =>
              obtain ⟨bs, bd⟩ := br
              simp only [hb] at h
              split at h
              · simp only [Except.ok.injEq, Option.some.injEq, Prod.mk.injEq] at h
                obtain ⟨rfl, -⟩ := h
                split
                · omega
                · omega
              · cases ha : itemRangeAt items (i1 + 1) 0 with
                | error e => simp [ha] at h
                | ok oa =>
                  cases oa with
                  | none => simp [ha] at h
                  | some ar =>
                    simp only [ha, Except.ok.injEq, Option.some.injEq,
                      Prod.mk.injEq] at h
                    obtain ⟨rfl, -⟩ := h
                    exact itemRangeAt_index_lt items (i1 + 1) 0 ar ha

theorem itemCount_addMarker (m : MMarker) (it : MItem)
    (h : itemCanHaveMarkers it = true) :
    itemMarkerCount (addMarkerToItem m it) = itemMarkerCount it + 1 := by
  match it with
  | .clip d ms | .gap d ms => simp [addMarkerToItem, itemMarkerCount]
  | .transition a b => simp [itemCanHaveMarkers] at h

theorem computable_remove (tl : MTimeline) (i : Nat) (m : MMarker) :
    trackRangesComputable (removeMarkerFromTrack tl i m) i =
      trackRangesComputable tl i := by
  simp only [trackRangesComputable, removeMarkerFromTrack]
  rw [modifyTrack_getElem_self]
  cases tl.tracks[i]? with
  | none => rfl
  | some tr => rfl

/-- **C6** (counterexample).  A marker whose recorded key matches no track
is *not* left on the originating track: `_attach_markers` moves it onto the
timeline's root stack (aaf.py 1313-1332).  On the concrete one-track
timeline, the originating track ends with no markers at all and the root
stack holds the marker. -/
theorem marker_missing_target_goes_to_root_stack :
    attachMarkers markerMissTimeline =
      .ok ⟨[⟨some 1, some 1, [MItem.clip (some 100) []], []⟩], [unattachedMarker]⟩ := by
  rfl

/-- **C6** (amended).  In the marker pass no successful step drops a marker,
but the destinations differ from the claim, and the missing-target case is
not even safe: the marker goes to the timeline's *root stack* when the
target track cannot be found — and only when the originating track's ranges
are computable, since the root-stack transform (aaf.py 1325-1327) sits
before the `try` and otherwise raises an *uncaught*
`CannotComputeAvailableRangeError` — and to the *target* track (not the
originating one) when the resolved item cannot carry markers or the caught
range computation fails:

* (no marker lost) a successful `processMarker` step preserves the total
  marker count of the timeline, provided the marker sits on its track and
  the target map points into the track list;
* (missing target, computable origin) with no track for the marker's key
  and an originating track whose ranges are computable, the step succeeds
  and the marker ends on the root stack;
* (cannot resolve / cannot carry) with a target track whose resolution
  raises `CannotComputeAvailableRangeError`, finds nothing, or finds an item
  that cannot carry markers, the step succeeds and the marker ends on the
  target track;
* (missing target, uncomputable origin) with no track for the marker's key
  and an originating track holding an item with no computable range, the
  step raises the uncaught `CannotComputeAvailableRangeError`: the pass
  aborts fatally. -/
theorem attach_markers_destinations :
    (∀ (map : List ((ℤ × ℤ) × Nat)) (tl : MTimeline) (i : Nat) (m : MMarker)
      (tr : MTrack), tl.tracks[i]? = some tr → m ∈ tr.markers →
      (∀ j, markerTarget map m = some j → j < tl.tracks.length) →
      ∀ tl2, processMarker map tl i m = .ok tl2 →
        timelineMarkerCount tl2 = timelineMarkerCount tl) ∧
    (∀ (map : List ((ℤ × ℤ) × Nat)) (tl : MTimeline) (i : Nat) (m : MMarker),
      markerTarget map m = none → trackRangesComputable tl i = true →
      ∃ tl2, processMarker map tl i m = .ok tl2 ∧ m ∈ tl2.stackMarkers) ∧
    (∀ (map : List ((ℤ × ℤ) × Nat)) (tl : MTimeline) (i : Nat) (m : MMarker)
      (j : Nat) (tgt : MTrack), markerTarget map m = some j →
      (removeMarkerFromTrack tl i m).tracks[j]? = some tgt →
      (findChildAtTime tgt.items m.start = .error .cannotCompute ∨
        findChildAtTime tgt.items m.start = .ok none ∨
        ∃ i2 p it, findChildAtTime tgt.items m.start = .ok (some (i2, p)) ∧
          tgt.items[i2]? = some it ∧ itemCanHaveMarkers it = false) →
      ∃ tl2 tr2, processMarker map tl i m = .ok tl2 ∧
        tl2.tracks[j]? = some tr2 ∧ m ∈ tr2.markers) ∧
    (∀ (map : List ((ℤ × ℤ) × Nat)) (tl : MTimeline) (i : Nat) (m : MMarker),
      markerTarget map m = none → trackRangesComputable tl i = false →
      processMarker map tl i m = .error .cannotCompute) := by
  refine ⟨?_, ?_, ?_, ?_⟩
  · -- count preservation
    intro map tl i m tr hi hm hvalid tl2 h
    have hsum1 := modifyTrack_map_sum trackMarkerCount tl.tracks i
      (fun tr0 => { tr0 with markers := tr0.markers.erase m }) tr hi
    simp only [] at hsum1
    have hg1 : trackMarkerCount { tr with markers := tr.markers.erase m } + 1 =
        trackMarkerCount tr := by
      simp only [trackMarkerCount]
      have h1 := List.length_erase_of_mem hm
      have h2 := List.length_pos_of_mem hm
      omega
    have hremove : timelineMarkerCount (removeMarkerFromTrack tl i m) + 1 =
        timelineMarkerCount tl := by
      simp only [removeMarkerFromTrack, timelineMarkerCount]
      omega
    rw [processMarker] at h
    cases ht : markerTarget map m with
    | none =>
      simp only [ht] at h
      split at h
      · simp only [Except.ok.injEq] at h
        subst h
        simp only [timelineMarkerCount, List.length_append, List.length_cons,
          List.length_nil] at hremove ⊢
        omega
      · simp at h
    | some j =>
      simp only [ht] at h
      have hj : j < (removeMarkerFromTrack tl i m).tracks.length := by
        have := hvalid j ht
        simpa [removeMarkerFromTrack, modifyTrack_length] using this
      obtain ⟨tgt, htgt⟩ : ∃ x, (removeMarkerFromTrack tl i m).tracks[j]? = some x :=
        ⟨_, List.getElem?_eq_getElem hj⟩
      simp only [htgt] at h
      have hsum2 := modifyTrack_map_sum trackMarkerCount
        (removeMarkerFromTrack tl i m).tracks j
        (fun tr0 => { tr0 with markers := tr0.markers ++ [m] }) tgt htgt
      simp only [] at hsum2
      have hg2 : trackMarkerCount { tgt with markers := tgt.markers ++ [m] } =
          trackMarkerCount tgt + 1 := by
        simp only [trackMarkerCount, List.length_append, List.length_cons,
          List.length_nil]
        omega
      have haddTrack : timelineMarkerCount
          (addMarkerToTrack (removeMarkerFromTrack tl i m) j m) =
          timelineMarkerCount (removeMarkerFromTrack tl i m) + 1 := by
        simp only [addMarkerToTrack, timelineMarkerCount]
        omega
      cases hf : findChildAtTime tgt.items m.start with
      | error e =>
        cases e with
        | indexError => simp [hf] at h
        | cannotCompute =>
          simp only [hf, Except.ok.injEq] at h
          subst h
          omega
      | ok o =>
        cases o with
        | none =>
          simp only [hf, Except.ok.injEq] at h
          subst h
          omega
        | some q =>
          obtain ⟨i2, pos⟩ := q
          simp only [hf] at h
          have hi2 : i2 < tgt.items.length :=
            findChildAtTime_index_lt tgt.items m.start i2 pos hf
          obtain ⟨it, hit⟩ : ∃ x, tgt.items[i2]? = some x :=
            ⟨_, List.getElem?_eq_getElem hi2⟩
          simp only [hit] at h
          by_cases hcond : (itemCanHaveMarkers it &&
              trackRangesComputable (removeMarkerFromTrack tl i m) i &&
              tgt.items.all itemDurComputable) = true
          case neg =>
            rw [if_neg hcond] at h
            simp only [Except.ok.injEq] at h
            subst h
            omega
          case pos =>
            have hcan : itemCanHaveMarkers it = true := by
              simp only [Bool.and_eq_true] at hcond
              exact hcond.1.1
            rw [if_pos hcond] at h
            simp only [Except.ok.injEq] at h
            subst h
            have hsumItems := modifyItem_map_sum itemMarkerCount tgt.items i2
              (addMarkerToItem { m with start := m.start - pos }) it hit
            have hone := itemCount_addMarker { m with start := m.start - pos } it hcan
            have hsum3 := modifyTrack_map_sum trackMarkerCount
              (removeMarkerFromTrack tl i m).tracks j
              (fun tr0 => { tr0 with items := modifyItem tr0.items i2 (addMarkerToItem { m with start := m.start - pos }) }) tgt htgt
            simp only [] at hsum3
            have hg3 : trackMarkerCount { tgt with items := modifyItem tgt.items i2 (addMarkerToItem { m with start := m.start - pos }) } + 1 = trackMarkerCount tgt + 1 + 1 := by
              simp only [trackMarkerCount]
              omega
            simp only [addMarkerAt, timelineMarkerCount] at *
            omega
  · -- missing target with computable origin: the root stack
    intro map tl i m ht hcomp
    refine ⟨{ removeMarkerFromTrack tl i m with stackMarkers := (removeMarkerFromTrack tl i m).stackMarkers ++ [m] }, ?_, by simp⟩
    rw [processMarker]
    simp only [ht]
    rw [if_pos (by rw [computable_remove]; exact hcomp)]
  · -- unresolvable target: the target track
    intro map tl i m j tgt ht htgt hcase
    rcases hcase with hf | hf | ⟨i2, p, it, hf, hit, hcan⟩
    · refine ⟨addMarkerToTrack (removeMarkerFromTrack tl i m) j m,
        { tgt with markers := tgt.markers ++ [m] }, ?_, ?_, by simp⟩
      · rw [processMarker]
        simp only [ht, htgt, hf]
      · simp [addMarkerToTrack, modifyTrack_getElem_self, htgt]
    · refine ⟨addMarkerToTrack (removeMarkerFromTrack tl i m) j m,
        { tgt with markers := tgt.markers ++ [m] }, ?_, ?_, by simp⟩
      · rw [processMarker]
        simp only [ht, htgt, hf]
      · simp [addMarkerToTrack, modifyTrack_getElem_self, htgt]
    · refine ⟨addMarkerToTrack (removeMarkerFromTrack tl i m) j m,
        { tgt with markers := tgt.markers ++ [m] }, ?_, ?_, by simp⟩
      · rw [processMarker]
        simp only [ht, htgt, hf, hit, hcan, Bool.false_and, Bool.false_eq_true, if_false]
      · simp [addMarkerToTrack, modifyTrack_getElem_self, htgt]
  · -- missing target with uncomputable origin: the uncaught raise
    intro map tl i m ht hcomp
    rw [processMarker]
    simp only [ht]
    rw [if_neg (by rw [computable_remove, hcomp]; simp)]

/-- Witness for `attach_markers_destinations`: the unattached marker of the
concrete one-track timeline (whose single clip's range is computable) lands
on the root stack. -/
theorem attach_markers_destinations_witness :
    ∃ tl2, processMarker [] markerMissTimeline 0 unattachedMarker = .ok tl2 ∧
      unattachedMarker ∈ tl2.stackMarkers :=
  attach_markers_destinations.2.1 [] markerMissTimeline 0 unattachedMarker rfl rfl

theorem collectCheckErrors_ok (edit : Option ℚ) (cs : List WChild)
    (h : ∀ c ∈ cs, isConsideredGap c ≠ .error ()) :
    collectCheckErrors edit cs = .ok ((cs.map (childCheckErrors edit)).flatten) := by
  induction cs with
  | nil => simp [collectCheckErrors]
  | cons c rest ih =>
    have hc : isConsideredGap c ≠ .error () := h c (by simp)
    have hrest := ih fun x hx => h x (by simp [hx])
    rw [collectCheckErrors]
    cases hg : isConsideredGap c with
    | error e => exact absurd (hg.trans (by rfl)) hc
    | ok b => simp [hrest]

/-- **C8.** `validate_metadata` collects every metadata violation over all
Clips/Gaps/Transitions without short-circuiting (provided no clip carries a
non-"Slug" generator reference, which raises `NotSupportedError` instead)
and raises exactly one aggregated validation error listing every failure; a
timeline with 4 independent defects on 4 different children yields one error
with exactly those 4 distinct lines, and a defect-free timeline raises
nothing. -/
theorem validate_metadata_aggregates :
    (∀ tl : WTimeline, (∀ c ∈ tl.children, isConsideredGap c ≠ .error ()) →
      validateMetadata tl =
        if allViolationLines tl = [] then .ok ()
        else .error (.validation (allViolationLines tl))) ∧
    validateMetadata fourDefectTimeline =
      .error (.validation
        ["c1 duration().rate not equal to expected",
         "g2 duration().rate does not exist",
         "t3 metadata AAF PointList does not exist",
         "t4 metadata AAF CutPoint does not exist"]) ∧
    ["c1 duration().rate not equal to expected",
     "g2 duration().rate does not exist",
     "t3 metadata AAF PointList does not exist",
     "t4 metadata AAF CutPoint does not exist"].Nodup ∧
    validateMetadata cleanTimeline = .ok () := by
  refine ⟨?_, ?_, by decide, ?_⟩
  · intro tl h
    rw [validateMetadata, collectCheckErrors_ok tl.durationRate tl.children h]
    rfl
  · rfl
  · rfl

/-- Witness for `validate_metadata_aggregates`: the defect-free timeline
discharges the no-generator hypothesis and raises nothing. -/
theorem validate_metadata_aggregates_witness :
    validateMetadata cleanTimeline =
      if allViolationLines cleanTimeline = [] then .ok ()
      else .error (.validation (allViolationLines cleanTimeline)) :=
  validate_metadata_aggregates.1 cleanTimeline (by
    intro c hc
    simp only [cleanTimeline] at hc
    fin_cases hc <;> simp [isConsideredGap])

/-- **C1** (amended).  The mob-ID cache is consulted first, and a hit
returns the cached tree node with the cache untouched — the mob is never
re-transcribed; once a transcription of a mob succeeds, the cache maps its
id to the produced node, and every later transcription of that id (any
recursion budget) returns exactly that node, so each mob ID maps to exactly
one transcribed node per read pass.  (The insertion, however, happens after
the recursion into the children, not before: see
`mob_cache_insert_is_after_recursion`.) -/
theorem mob_cache_memoization (env : List Mob) :
    (∀ fuel mobId cache t, cacheGet cache mobId = some t →
      transcribeMob env (fuel + 1) mobId cache = some (t, cache)) ∧
    (∀ fuel mobId cache t cache2,
      transcribeMob env fuel mobId cache = some (t, cache2) →
      cacheGet cache2 mobId = some t ∧
      ∀ fuel2, transcribeMob env (fuel2 + 1) mobId cache2 = some (t, cache2)) := by
  have hit : ∀ fuel mobId cache t, cacheGet cache mobId = some t →
      transcribeMob env (fuel + 1) mobId cache = some (t, cache) := by
    intro fuel mobId cache t hc
    rw [transcribeMob, hc]
  refine ⟨hit, ?_⟩
  intro fuel mobId cache t cache2 h
  have hmem := ((transcribeMob_cache_sound env fuel).1 mobId cache t cache2 h).1
  exact ⟨hmem, fun fuel2 => hit fuel2 mobId cache2 t hmem⟩

/-! ## Simplifier structural invariants and normal forms (claims C4 and C5) -/


theorem isStack_withData (t : OTItem) (d : ItemData) : (t.withData d).isStack = t.isStack := by
  cases t <;> rfl

theorem isStack_of_isTrack (t : OTItem) (h : t.isTrack = true) : t.isStack = false := by
  cases t <;> simp [OTItem.isTrack, OTItem.isStack] at h ⊢

theorem ensure_children_tracks (d : ItemData) (ch : List OTItem) :
    ∀ c ∈ (ensureStackTracks (OTItem.stack d ch)).children, c.isTrack = true := by
  intro c hc
  simp only [ensureStackTracks, OTItem.children, List.mem_map] at hc
  obtain ⟨x, _, rfl⟩ := hc
  by_cases hx : x.isTrack = true
  · rw [if_pos hx]; exact hx
  · rw [if_neg hx]; rfl

theorem notRedundant_of_length (ctx : SCtx) (t : OTItem)
    (h : t.children.length ≠ 1) : isRedundantContainer ctx t = false := by
  simp only [isRedundantContainer]
  by_cases hcomp : (!t.isComposition) = true
  · rw [if_pos hcomp]
  · rw [if_neg hcomp, if_pos h]

theorem collapse_stack_not_stack (d : ItemData) (x : OTItem) (hx : x.isTrack = true) :
    (collapseRedundant (OTItem.stack d [x])).isStack = false := by
  have hxs := isStack_of_isTrack x hx
  simp only [collapseRedundant, OTItem.children]
  repeat' split
  all_goals simp [isStack_withData, hxs]

theorem stackTrim_isStack (d : ItemData) (ch : List OTItem) :
    (stackTrim (OTItem.stack d ch)).isStack = true := by
  simp only [stackTrim]
  split
  · rfl
  · split <;> rfl

theorem stackTrim_children_tracks (d : ItemData) (ch : List OTItem)
    (h : ∀ x ∈ ch, x.isTrack = true) :
    ∀ x ∈ (stackTrim (OTItem.stack d ch)).children, x.isTrack = true := by
  intro x hx
  simp only [stackTrim] at hx
  split at hx
  · simp only [OTItem.children] at hx; exact h x hx
  · split at hx
    · simp only [OTItem.children] at hx; exact h x hx
    · simp only [OTItem.children, List.mem_map] at hx
      obtain ⟨y, hy, rfl⟩ := hx
      have hyt := h y hy
      match y, hyt with
      | .track dy chy, _ => rfl

theorem trim_ensure_isStack (d : ItemData) (ch : List OTItem) :
    (stackTrim (ensureStackTracks (OTItem.stack d ch))).isStack = true := by
  simp only [ensureStackTracks]
  exact stackTrim_isStack _ _

theorem trim_ensure_children_tracks (d : ItemData) (ch : List OTItem) :
    ∀ x ∈ (stackTrim (ensureStackTracks (OTItem.stack d ch))).children, x.isTrack = true := by
  simp only [ensureStackTracks]
  exact stackTrim_children_tracks _ _ (ensure_children_tracks d ch)

theorem finish_pick_children_tracks (M : OTItem) (hst : M.isStack = true)
    (hall : ∀ x ∈ M.children, x.isTrack = true) :
    ∀ c ∈ (if (simplifyFinish noParentCtx M).isStack = true
           then simplifyFinish noParentCtx M else M).children, c.isTrack = true := by
  cases M with
  | clip d => simp [OTItem.isStack] at hst
  | gap d => simp [OTItem.isStack] at hst
  | transition d => simp [OTItem.isStack] at hst
  | track d ch => simp [OTItem.isStack] at hst
  | stack dM chM =>
    by_cases hred : isRedundantContainer noParentCtx (OTItem.stack dM chM) = true
    · have hlen : chM.length = 1 := by
        by_contra hne
        rw [notRedundant_of_length _ _ (by simpa [OTItem.children] using hne)] at hred
        exact absurd hred (by simp)
      obtain ⟨x, hx⟩ := List.length_eq_one.mp hlen
      subst hx
      have hxt : x.isTrack = true := hall x (by simp [OTItem.children])
      have hcol := collapse_stack_not_stack dM x hxt
      have hfin : simplifyFinish noParentCtx (OTItem.stack dM [x]) =
          collapseRedundant (OTItem.stack dM [x]) := by
        simp only [simplifyFinish]; rw [if_pos hred]
      rw [hfin, if_neg (by simp [hcol])]
      exact hall
    · have hfin : simplifyFinish noParentCtx (OTItem.stack dM chM) =
          ensureStackTracks (OTItem.stack dM chM) := by
        simp only [simplifyFinish]
        rw [if_neg hred, if_pos (by simp [OTItem.isStack, noParentCtx])]
      rw [hfin]
      have hens : (ensureStackTracks (OTItem.stack dM chM)).isStack = true := by
        simp [ensureStackTracks, OTItem.isStack]
      rw [if_pos hens]
      exact ensure_children_tracks dM chM

theorem simplifyTimeline_tracks (tl : OTimeline) :
    (simplifyTimeline tl).tracks =
      (if (simplifyPair noParentCtx tl.tracks).1.isStack = true
       then (simplifyPair noParentCtx tl.tracks).1
       else (simplifyPair noParentCtx tl.tracks).2) := by
  simp only [simplifyTimeline]
  split <;> rfl

theorem root_result_children_tracks (d : ItemData) (ch : List OTItem) :
    ∀ c ∈ (if (simplifyPair noParentCtx (OTItem.stack d ch)).1.isStack = true
           then (simplifyPair noParentCtx (OTItem.stack d ch)).1
           else (simplifyPair noParentCtx (OTItem.stack d ch)).2).children,
      c.isTrack = true := by
  by_cases hch : ch.isEmpty = true
  · have he : ch = [] := by simpa [List.isEmpty_iff] using hch
    subst he
    intro c hc
    simp only [simplifyPair, List.isEmpty_nil, if_pos] at hc
    simp [OTItem.isStack, OTItem.children] at hc
  · simp only [simplifyPair, if_neg hch]
    exact finish_pick_children_tracks _ (trim_ensure_isStack _ _) (trim_ensure_children_tracks _ _)

/-- **C5** (counterexample).  The claim's second example is wrong:
`Track[Stack[Track[Track[Clip]]]]` does *not* simplify to
`Track[Track[Clip]]`.  The single-child inner tracks are flattened
(the innermost by the redundant-container collapse during recursion, the
next by the track-flattening loop), so the root stack's only child is a
`Track` holding the bare `Clip` — no nested track survives. -/
theorem inner_track_wrapper_not_preserved :
    (simplifyTimeline tlTrackStackTrackTrackClip).tracks =
      OTItem.stack ItemData.default [OTItem.track ItemData.default [plainClip]] ∧
    ((simplifyTimeline tlTrackStackTrackTrackClip).tracks.children.headD plainClip).children.any
      OTItem.isTrack = false := by
  have h1 : (simplifyTimeline tlTrackStackTrackTrackClip).tracks =
      OTItem.stack ItemData.default [OTItem.track ItemData.default [plainClip]] := by
    simp [simplifyTimeline, simplifyItem, simplifyPair, simplifyChildren, simplifyFinish,
      isRedundantContainer, amTopLevelTrack, collapseRedundant, stackTrim,
      ensureStackTracks, wrapInTrack, trackFlattenLoop, stackFlattenLoop,
      trackFlattenChild, trackFlattenKids, mergedFirstItem, fixTimeEffectDuration,
      stackFlattenInner, trackItemCanFlatten, stackItemCanBeFlatten,
      containsSomethingValuable, listContainsValuable, valuableMetadata,
      hasEffects, hasTimeEffect, hasTransitionsIn, trimmedRangeOf,
      trackTrimmedToRange, trimItems, trimMarkersItem, rangeContains,
      itemDurQ, durSumQ, durMaxQ, childCtx, noParentCtx,
      OTItem.isTrack, OTItem.isStack, OTItem.isComposition, OTItem.isItem,
      OTItem.isTransition, OTItem.children, OTItem.data, OTItem.withData,
      ItemData.default, plainClip, tlTrackStackTrackTrackClip, transcribeMediaKind]
  exact ⟨h1, by rw [h1]; rfl⟩

/-- **C5** (amended).  After simplification every top-level child of the
root stack is a `Track` — for every timeline whose `tracks` is a Stack,
unconditionally (the redundant-container collapse of the root stack is
discarded by the Timeline branch, and `_ensure_stack_tracks` wraps every
non-Track child).  The claim's first structural example holds —
`Track[Stack[Track[Clip]]]` simplifies to `Track[Clip]` under the root
stack — but so does the deeper one: `Track[Stack[Track[Track[Clip]]]]`
also simplifies to `Track[Clip]`, not `Track[Track[Clip]]`: *all* inner
wrappers are removed, while the root's own track survives. -/
theorem simplify_root_children_all_tracks :
    (∀ tl : OTimeline, tl.tracks.isStack = true →
        ∀ c ∈ (simplifyTimeline tl).tracks.children, c.isTrack = true) ∧
    simplifyTimeline tlTrackStackTrackClip =
      ⟨"tl", OTItem.stack ItemData.default [OTItem.track ItemData.default [plainClip]]⟩ ∧
    simplifyTimeline tlTrackStackTrackTrackClip =
      ⟨"tl", OTItem.stack ItemData.default [OTItem.track ItemData.default [plainClip]]⟩ := by
  refine ⟨?_, ?_, ?_⟩
  · intro tl hst c hc
    rcases htr : tl.tracks with ⟨d⟩ | ⟨d⟩ | ⟨d⟩ | ⟨d, ch⟩ | ⟨d, ch⟩ <;>
      rw [htr] at hst <;> try simp [OTItem.isStack] at hst
    rw [simplifyTimeline_tracks, htr] at hc
    exact root_result_children_tracks d ch c hc
  all_goals
    simp [simplifyTimeline, simplifyItem, simplifyPair, simplifyChildren, simplifyFinish,
      isRedundantContainer, amTopLevelTrack, collapseRedundant, stackTrim,
      ensureStackTracks, wrapInTrack, trackFlattenLoop, stackFlattenLoop,
      trackFlattenChild, trackFlattenKids, mergedFirstItem, fixTimeEffectDuration,
      stackFlattenInner, trackItemCanFlatten, stackItemCanBeFlatten,
      containsSomethingValuable, listContainsValuable, valuableMetadata,
      hasEffects, hasTimeEffect, hasTransitionsIn, trimmedRangeOf,
      trackTrimmedToRange, trimItems, trimMarkersItem, rangeContains,
      itemDurQ, durSumQ, durMaxQ, childCtx, noParentCtx,
      OTItem.isTrack, OTItem.isStack, OTItem.isComposition, OTItem.isItem,
      OTItem.isTransition, OTItem.children, OTItem.data, OTItem.withData,
      ItemData.default, plainClip, tlTrackStackTrackClip, tlTrackStackTrackTrackClip,
      transcribeMediaKind]

/-- **C4** (counterexample).  The simplifier is not idempotent on arbitrary
trees: a parentless `Stack[Track[Clip]]` simplifies to `Track[Clip]` (the
stack is a redundant container), and simplifying that result again
collapses the now-redundant parentless track to the bare `Clip`.  Each call
strips one redundant root wrapper, because `am_top_level_track` sees a
different parent chain on the second call. -/
theorem simplify_not_idempotent_on_bare_stack :
    simplifyItem noParentCtx bareStackTrackClip = OTItem.track ItemData.default [plainClip] ∧
    simplifyItem noParentCtx (simplifyItem noParentCtx bareStackTrackClip) = plainClip ∧
    simplifyItem noParentCtx (simplifyItem noParentCtx bareStackTrackClip) ≠
      simplifyItem noParentCtx bareStackTrackClip := by
  have h1 : simplifyItem noParentCtx bareStackTrackClip =
      OTItem.track ItemData.default [plainClip] := by
    simp [simplifyItem, simplifyPair, simplifyChildren, simplifyFinish,
      isRedundantContainer, amTopLevelTrack, collapseRedundant, stackTrim,
      ensureStackTracks, wrapInTrack, trackFlattenLoop, stackFlattenLoop,
      trackFlattenChild, trackFlattenKids, mergedFirstItem, fixTimeEffectDuration,
      stackFlattenInner, trackItemCanFlatten, stackItemCanBeFlatten,
      containsSomethingValuable, listContainsValuable, valuableMetadata,
      hasEffects, hasTimeEffect, hasTransitionsIn, trimmedRangeOf,
      trackTrimmedToRange, trimItems, trimMarkersItem, rangeContains,
      itemDurQ, durSumQ, durMaxQ, childCtx, noParentCtx,
      OTItem.isTrack, OTItem.isStack, OTItem.isComposition, OTItem.isItem,
      OTItem.isTransition, OTItem.children, OTItem.data, OTItem.withData,
      ItemData.default, plainClip, bareStackTrackClip, transcribeMediaKind]
  have h2 : simplifyItem noParentCtx (OTItem.track ItemData.default [plainClip]) =
      plainClip := by
    simp [simplifyItem, simplifyPair, simplifyChildren, simplifyFinish,
      isRedundantContainer, amTopLevelTrack, collapseRedundant, stackTrim,
      ensureStackTracks, wrapInTrack, trackFlattenLoop, stackFlattenLoop,
      trackFlattenChild, trackFlattenKids, mergedFirstItem, fixTimeEffectDuration,
      stackFlattenInner, trackItemCanFlatten, stackItemCanBeFlatten,
      containsSomethingValuable, listContainsValuable, valuableMetadata,
      hasEffects, hasTimeEffect, hasTransitionsIn, trimmedRangeOf,
      trackTrimmedToRange, trimItems, trimMarkersItem, rangeContains,
      itemDurQ, durSumQ, durMaxQ, childCtx, noParentCtx,
      OTItem.isTrack, OTItem.isStack, OTItem.isComposition, OTItem.isItem,
      OTItem.isTransition, OTItem.children, OTItem.data, OTItem.withData,
      ItemData.default, plainClip, transcribeMediaKind]
  refine ⟨h1, by rw [h1]; exact h2, ?_⟩
  rw [h1, h2]
  simp [plainClip]

/-- Node fields untouched by any simplifier rewrite: no markers, no effects,
enabled, no source range, and no valuable metadata. -/
def plainD (d : ItemData) : Bool :=
  d.markers.isEmpty && d.effects.isEmpty && d.enabled && d.sourceRange.isNone &&
    !d.valuableMeta

mutual

/-- Normal form for a child of a (simplified) track: a plain clip or gap, or
a plain multi-child sub-stack of normal-form nested tracks. -/
def nfItem : OTItem → Bool
  | .clip d => plainD d
  | .gap d => plainD d
  | .transition _ => false
  | .track _ _ => false
  | .stack d ch => plainD d && decide (2 ≤ ch.length) && nfNestedList ch

/-- Normal form for a child of a nested (non-root) sub-stack: either a
synthetic wrapper track around a plain clip, exactly as `_ensure_stack_tracks`
builds it, or a plain multi-child track of valuable normal-form items. -/
def nfNested : OTItem → Bool
  | .track d [c] =>
    (match c with
     | .clip cd => plainD cd && decide (d = (wrapInTrack (OTItem.clip cd)).data)
     | _ => false)
  | .track d (a :: b :: rest) =>
    plainD d && nfItemList (a :: b :: rest) && listContainsValuable (a :: b :: rest)
  | _ => false

/-- See `nfItem`. -/
def nfItemList : List OTItem → Bool
  | [] => true
  | c :: rest => nfItem c && nfItemList rest

/-- See `nfNested`. -/
def nfNestedList : List OTItem → Bool
  | [] => true
  | c :: rest => nfNested c && nfNestedList rest

end

/-- Normal form for a child of the root stack: a nonempty plain track of
valuable normal-form items whose single child, if it has exactly one, is not
a sub-stack. -/
def nfRoot : OTItem → Bool
  | .track d ch =>
    plainD d && !ch.isEmpty && nfItemList ch && listContainsValuable ch &&
      (match ch with
       | [c] => !c.isStack
       | _ => true)
  | _ => false

/-- A timeline in simplified normal form: a plain root stack of normal-form
tracks. -/
def nfTimeline (tl : OTimeline) : Bool :=
  match tl.tracks with
  | .stack d ch => plainD d && ch.all nfRoot
  | _ => false

theorem simplifyChildren_eq_map (ctx : SCtx) (l : List OTItem) :
    simplifyChildren ctx l = l.map fun c => (simplifyPair ctx c).1 := by
  induction l with
  | nil => simp [simplifyChildren]
  | cons c rest ih => rw [simplifyChildren, ih]; rfl

theorem trackFlattenLoop_no_flatten (todoRev : List OTItem)
    (h : ∀ c ∈ todoRev, trackItemCanFlatten c = false) :
    ∀ done mk en, trackFlattenLoop todoRev done mk en =
      ⟨todoRev.reverse ++ done, mk, en⟩ := by
  induction todoRev with
  | nil => intro done mk en; rw [trackFlattenLoop]; simp
  | cons cur rest ih =>
    intro done mk en
    have hcur : trackItemCanFlatten cur = false := h cur (by simp)
    rw [trackFlattenLoop, if_neg (by simp [hcur])]
    rw [ih (fun c hc => h c (by simp [hc])) (cur :: done) mk en]
    simp

theorem stackFlattenLoop_no_flatten (todoRev : List OTItem)
    (h : ∀ c ∈ todoRev, stackItemCanBeFlatten c = false) :
    ∀ done mk en, stackFlattenLoop todoRev done mk en =
      ⟨todoRev.reverse ++ done, mk, en⟩ := by
  induction todoRev with
  | nil => intro done mk en; rw [stackFlattenLoop]; simp
  | cons cur rest ih =>
    intro done mk en
    have hcur : stackItemCanBeFlatten cur = false := h cur (by simp)
    rw [stackFlattenLoop, if_neg (by simp [hcur])]
    rw [ih (fun c hc => h c (by simp [hc])) (cur :: done) mk en]
    simp

theorem osize_le_of_mem {x : OTItem} {l : List OTItem} (h : x ∈ l) :
    osize x ≤ osizeList l := by
  induction l with
  | nil => cases h
  | cons c rest ih =>
    rcases List.mem_cons.mp h with rfl | hr
    · simp only [osizeList]; omega
    · have := ih hr; simp only [osizeList]; omega

theorem nfItem_not_track (x : OTItem) (h : nfItem x = true) : x.isTrack = false := by
  cases x <;> simp [nfItem, OTItem.isTrack] at h ⊢

theorem nfItem_not_flatten (x : OTItem) (h : nfItem x = true) :
    trackItemCanFlatten x = false := by
  have := nfItem_not_track x h
  simp [trackItemCanFlatten, this]

theorem nfItemList_mem (l : List OTItem) (h : nfItemList l = true) :
    ∀ x ∈ l, nfItem x = true := by
  induction l with
  | nil => intro x hx; cases hx
  | cons c rest ih =>
    rw [nfItemList, Bool.and_eq_true] at h
    intro x hx
    rcases List.mem_cons.mp hx with rfl | hr
    · exact h.1
    · exact ih h.2 x hr

theorem nfNestedList_mem (l : List OTItem) (h : nfNestedList l = true) :
    ∀ x ∈ l, nfNested x = true := by
  induction l with
  | nil => intro x hx; cases hx
  | cons c rest ih =>
    rw [nfNestedList, Bool.and_eq_true] at h
    intro x hx
    rcases List.mem_cons.mp hx with rfl | hr
    · exact h.1
    · exact ih h.2 x hr

theorem stackFlatten_clip (d : ItemData) : stackItemCanBeFlatten (OTItem.clip d) = false := by
  simp only [stackItemCanBeFlatten]
  split <;> rfl

theorem stackFlatten_gap (d : ItemData) : stackItemCanBeFlatten (OTItem.gap d) = false := by
  simp only [stackItemCanBeFlatten]
  split <;> rfl

theorem stackFlatten_track_multi (d : ItemData) (a b : OTItem) (rest : List OTItem) :
    stackItemCanBeFlatten (OTItem.track d (a :: b :: rest)) = false := by
  simp only [stackItemCanBeFlatten]
  split <;> rfl

theorem stackFlatten_track_single (d : ItemData) (c : OTItem) (hc : c.isStack = false) :
    stackItemCanBeFlatten (OTItem.track d [c]) = false := by
  simp only [stackItemCanBeFlatten]
  split
  · rfl
  · simp [hc]

theorem plainD_spec (d : ItemData) (h : plainD d = true) :
    d.markers = [] ∧ d.effects = [] ∧ d.enabled = true ∧ d.sourceRange = none ∧
      d.valuableMeta = false := by
  simp only [plainD, Bool.and_eq_true] at h
  obtain ⟨⟨⟨⟨h1, h2⟩, h3⟩, h4⟩, h5⟩ := h
  exact ⟨List.isEmpty_iff.mp h1, List.isEmpty_iff.mp h2, h3,
    Option.isNone_iff_eq_none.mp h4, by simpa using h5⟩

theorem stackTrim_noSrc (d : ItemData) (ch : List OTItem) (h : d.sourceRange = none) :
    stackTrim (OTItem.stack d ch) = OTItem.stack d ch := by
  simp only [stackTrim, h]

theorem simplifyFinish_id (ctx : SCtx) (M : OTItem)
    (h1 : isRedundantContainer ctx M = false)
    (h2 : (M.isStack && ctx.parentIsNone) = false) :
    simplifyFinish ctx M = M := by
  simp only [simplifyFinish]
  rw [if_neg (by simp [h1]), if_neg (by simp [h2])]

theorem simplifyPair_track_eval (ctx : SCtx) (d : ItemData) (ch : List OTItem)
    (hne : ch ≠ [])
    (hch : simplifyChildren ⟨false, false, ctx.parentIsNone⟩ ch = ch)
    (hfl : ∀ c ∈ ch, trackItemCanFlatten c = false) :
    simplifyPair ctx (OTItem.track d ch) =
      (simplifyFinish ctx (OTItem.track d ch), OTItem.track d ch) := by
  simp only [simplifyPair]
  rw [if_neg (by simp [hne])]
  rw [hch]
  rw [trackFlattenLoop_no_flatten ch.reverse (by simpa using hfl) [] [] true]
  simp

theorem simplifyPair_stack_eval (ctx : SCtx) (d : ItemData) (ch ch1 : List OTItem)
    (hne : ch ≠ [])
    (hch : simplifyChildren ⟨true, false, ctx.parentIsNone⟩ ch = ch1)
    (hval : ∀ c ∈ ch1, containsSomethingValuable c = true)
    (hfl : ∀ c ∈ ch1, stackItemCanBeFlatten c = false) :
    simplifyPair ctx (OTItem.stack d ch) =
      (simplifyFinish ctx (stackTrim (ensureStackTracks (OTItem.stack d ch1))),
       stackTrim (ensureStackTracks (OTItem.stack d ch1))) := by
  simp only [simplifyPair]
  rw [if_neg (by simp [hne])]
  rw [hch]
  rw [List.filter_eq_self.mpr hval]
  rw [stackFlattenLoop_no_flatten ch1.reverse (by simpa using hfl) [] [] true]
  simp

theorem sp_clip (ctx : SCtx) (d : ItemData) :
    simplifyPair ctx (OTItem.clip d) = (OTItem.clip d, OTItem.clip d) := by
  simp [simplifyPair]

theorem sp_gap (ctx : SCtx) (d : ItemData) :
    simplifyPair ctx (OTItem.gap d) = (OTItem.gap d, OTItem.gap d) := by
  simp [simplifyPair]

theorem nf_fixed_point :
    ∀ n : Nat, ∀ c : OTItem, osize c ≤ n →
      (nfItem c = true → simplifyPair ⟨false, false, false⟩ c = (c, c)) ∧
      (nfNested c = true →
        (simplifyPair ⟨true, false, false⟩ c).2 = c ∧
        containsSomethingValuable (simplifyPair ⟨true, false, false⟩ c).1 = true ∧
        stackItemCanBeFlatten (simplifyPair ⟨true, false, false⟩ c).1 = false ∧
        (if (simplifyPair ⟨true, false, false⟩ c).1.isTrack = true
         then (simplifyPair ⟨true, false, false⟩ c).1
         else wrapInTrack (simplifyPair ⟨true, false, false⟩ c).1) = c) ∧
      (nfRoot c = true → simplifyPair ⟨true, false, true⟩ c = (c, c)) := by
  intro n
  induction n with
  | zero =>
    intro c hc
    exact absurd (le_trans (osize_pos c) hc) (by norm_num)
  | succ n ih =>
    intro c hc
    cases c with
    | clip d =>
      refine ⟨fun _ => sp_clip _ _, fun _ => ?_, fun h => ?_⟩
      · rw [sp_clip]
        refine ⟨rfl, by simp [containsSomethingValuable], stackFlatten_clip d, ?_⟩
        simp [nfNested] at *
      · simp [nfRoot] at h
    | gap d =>
      refine ⟨fun _ => sp_gap _ _, fun h => ?_, fun h => ?_⟩
      · simp [nfNested] at h
      · simp [nfRoot] at h
    | transition d =>
      refine ⟨fun h => ?_, fun h => ?_, fun h => ?_⟩
      · simp [nfItem] at h
      · simp [nfNested] at h
      · simp [nfRoot] at h
    | track d ch =>
      have hsz : osizeList ch ≤ n := by
        have h1 := osizeList_children_lt (OTItem.track d ch)
        simp only [OTItem.children] at h1
        simp only [osize] at hc
        omega
      have hS1 : ∀ x ∈ ch, nfItem x = true →
          simplifyPair ⟨false, false, false⟩ x = (x, x) :=
        fun x hx => (ih x (le_trans (osize_le_of_mem hx) hsz)).1
      refine ⟨fun h => by simp [nfItem] at h, fun h => ?_, fun h => ?_⟩
      · -- nested-stack child
        match ch, h with
        | [x], h =>
          match x, h with
          | .clip cd, h =>
            simp only [nfNested, Bool.and_eq_true, decide_eq_true_eq] at h
            obtain ⟨hpl, hd⟩ := h
            subst hd
            have heval := simplifyPair_track_eval ⟨true, false, false⟩
              (wrapInTrack (OTItem.clip cd)).data [OTItem.clip cd]
              (by simp)
              (by rw [simplifyChildren_eq_map]; simp [sp_clip])
              (by intro c hc2; simp at hc2; subst hc2
                  simp [trackItemCanFlatten, OTItem.isTrack])
            have hred : isRedundantContainer ⟨true, false, false⟩
                (OTItem.track (wrapInTrack (OTItem.clip cd)).data [OTItem.clip cd]) = true := by
              simp [isRedundantContainer, amTopLevelTrack, OTItem.isComposition,
                OTItem.children, OTItem.isTrack, valuableMetadata, OTItem.data,
                wrapInTrack, ItemData.default]
            have hcol : collapseRedundant
                (OTItem.track (wrapInTrack (OTItem.clip cd)).data [OTItem.clip cd]) =
                OTItem.clip cd := by
              simp [collapseRedundant, OTItem.children, OTItem.withData, OTItem.data,
                wrapInTrack, ItemData.default]
            have hfin : simplifyFinish ⟨true, false, false⟩
                (OTItem.track (wrapInTrack (OTItem.clip cd)).data [OTItem.clip cd]) =
                OTItem.clip cd := by
              simp only [simplifyFinish]
              rw [if_pos hred, hcol]
            rw [heval, hfin]
            refine ⟨rfl, by simp [containsSomethingValuable], stackFlatten_clip cd, ?_⟩
            simp [OTItem.isTrack, wrapInTrack, OTItem.data]
        | a :: b :: rest, h =>
          simp only [nfNested, Bool.and_eq_true] at h
          obtain ⟨⟨hpl, hil⟩, hval⟩ := h
          have hch : simplifyChildren ⟨false, false, false⟩ (a :: b :: rest) =
              a :: b :: rest := by
            rw [simplifyChildren_eq_map]
            rw [List.map_congr_left fun x hx =>
              congrArg Prod.fst (hS1 x hx (nfItemList_mem _ hil x hx))]
            exact List.map_id _
          have heval := simplifyPair_track_eval ⟨true, false, false⟩ d (a :: b :: rest)
            (by simp) hch
            (fun x hx => nfItem_not_flatten x (nfItemList_mem _ hil x hx))
          have hfin : simplifyFinish ⟨true, false, false⟩
              (OTItem.track d (a :: b :: rest)) = OTItem.track d (a :: b :: rest) := by
            refine simplifyFinish_id _ _ (notRedundant_of_length _ _ ?_) (by simp [OTItem.isStack])
            simp [OTItem.children]
          rw [heval, hfin]
          exact ⟨rfl, by simp [containsSomethingValuable, hval],
            stackFlatten_track_multi d a b rest, by simp [OTItem.isTrack]⟩
      · -- root-stack child
        simp only [nfRoot, Bool.and_eq_true] at h
        obtain ⟨⟨⟨⟨hpl, hne⟩, hil⟩, hval⟩, hsingle⟩ := h
        have hch : simplifyChildren ⟨false, false, false⟩ ch = ch := by
          rw [simplifyChildren_eq_map]
          rw [List.map_congr_left fun x hx =>
            congrArg Prod.fst (hS1 x hx (nfItemList_mem _ hil x hx))]
          exact List.map_id _
        have heval := simplifyPair_track_eval ⟨true, false, true⟩ d ch
          (by simpa [List.isEmpty_iff] using hne) hch
          (fun x hx => nfItem_not_flatten x (nfItemList_mem _ hil x hx))
        have hred : isRedundantContainer ⟨true, false, true⟩ (OTItem.track d ch) = false := by
          match ch, hne, hil with
          | [x], _, hil =>
            have hxt : x.isTrack = false :=
              nfItem_not_track x (nfItemList_mem _ hil x (by simp))
            simp [isRedundantContainer, amTopLevelTrack, OTItem.isComposition,
              OTItem.children, OTItem.isTrack, valuableMetadata, OTItem.data,
              (plainD_spec d hpl).2.2.2.2, hxt]
            exact hxt
          | a :: b :: rest, _, _ =>
            exact notRedundant_of_length _ _ (by simp [OTItem.children])
        rw [heval, simplifyFinish_id _ _ hred (by simp [OTItem.isStack])]
    | stack d ch =>
      have hsz : osizeList ch ≤ n := by
        have h1 := osizeList_children_lt (OTItem.stack d ch)
        simp only [OTItem.children] at h1
        simp only [osize] at hc
        omega
      have hS2 := fun x (hx : x ∈ ch) => (ih x (le_trans (osize_le_of_mem hx) hsz)).2.1
      refine ⟨fun h => ?_, fun h => by simp [nfNested] at h, fun h => by simp [nfRoot] at h⟩
      simp only [nfItem, Bool.and_eq_true, decide_eq_true_eq] at h
      obtain ⟨⟨hpl, hlen⟩, hnl⟩ := h
      have hnf := fun x (hx : x ∈ ch) => hS2 x hx (nfNestedList_mem _ hnl x hx)
      have hch : simplifyChildren ⟨true, false, false⟩ ch =
          ch.map fun x => (simplifyPair ⟨true, false, false⟩ x).1 :=
        simplifyChildren_eq_map _ _
      have hval : ∀ y ∈ ch.map (fun x => (simplifyPair ⟨true, false, false⟩ x).1),
          containsSomethingValuable y = true := by
        intro y hy
        obtain ⟨x, hx, rfl⟩ := List.mem_map.mp hy
        exact (hnf x hx).2.1
      have hfl : ∀ y ∈ ch.map (fun x => (simplifyPair ⟨true, false, false⟩ x).1),
          stackItemCanBeFlatten y = false := by
        intro y hy
        obtain ⟨x, hx, rfl⟩ := List.mem_map.mp hy
        exact (hnf x hx).2.2.1
      have heval := simplifyPair_stack_eval ⟨false, false, false⟩ d ch
        (ch.map fun x => (simplifyPair ⟨true, false, false⟩ x).1)
        (by intro he; subst he; simp at hlen) hch hval hfl
      have hens : ensureStackTracks (OTItem.stack d
          (ch.map fun x => (simplifyPair ⟨true, false, false⟩ x).1)) =
          OTItem.stack d ch := by
        simp only [ensureStackTracks, List.map_map]
        congr 1
        rw [List.map_congr_left fun x hx => ?_]
        · exact List.map_id _
        · exact (hnf x hx).2.2.2
      have hM : stackTrim (ensureStackTracks (OTItem.stack d
          (ch.map fun x => (simplifyPair ⟨true, false, false⟩ x).1))) =
          OTItem.stack d ch := by
        rw [hens]
        exact stackTrim_noSrc d ch (plainD_spec d hpl).2.2.2.1
      rw [heval, hM]
      rw [simplifyFinish_id ⟨false, false, false⟩ (OTItem.stack d ch)
        (notRedundant_of_length _ _ (by simp only [OTItem.children]; omega))
        (by simp)]

theorem nfRoot_parts (x : OTItem) (h : nfRoot x = true) :
    x.isTrack = true ∧ containsSomethingValuable x = true ∧
      stackItemCanBeFlatten x = false := by
  cases x with
  | clip d => simp [nfRoot] at h
  | gap d => simp [nfRoot] at h
  | transition d => simp [nfRoot] at h
  | stack d ch => simp [nfRoot] at h
  | track d ch =>
    simp only [nfRoot, Bool.and_eq_true] at h
    obtain ⟨⟨⟨⟨hpl, hne⟩, hil⟩, hval⟩, hsingle⟩ := h
    refine ⟨rfl, by simp [containsSomethingValuable, hval], ?_⟩
    match ch, hne, hsingle with
    | [x1], _, hsingle =>
      exact stackFlatten_track_single d x1 (by simpa using hsingle)
    | a :: b :: rest, _, _ =>
      exact stackFlatten_track_multi d a b rest

theorem simplifyTimeline_nf_fixed (tl : OTimeline) (h : nfTimeline tl = true) :
    simplifyTimeline tl = tl := by
  rcases htr : tl.tracks with ⟨d⟩ | ⟨d⟩ | ⟨d⟩ | ⟨d, ch⟩ | ⟨d, ch⟩ <;>
    rw [nfTimeline, htr] at h <;> try simp at h
  obtain ⟨hpl, hall⟩ : plainD d = true ∧ ∀ x ∈ ch, nfRoot x = true := by
    simpa [Bool.and_eq_true, List.all_eq_true] using h
  by_cases hche : ch = []
  · subst hche
    have hpair : simplifyPair noParentCtx (OTItem.stack d []) =
        (OTItem.stack d [], OTItem.stack d []) := by
      simp [simplifyPair]
    simp only [simplifyTimeline, htr, hpair]
    rw [if_pos (by simp [OTItem.isStack])]
    rw [← htr]
  · have hS3 : ∀ x ∈ ch, simplifyPair ⟨true, false, true⟩ x = (x, x) :=
      fun x hx => (nf_fixed_point (osize x) x le_rfl).2.2 (hall x hx)
    have hch1 : simplifyChildren ⟨true, false, true⟩ ch = ch := by
      rw [simplifyChildren_eq_map]
      rw [List.map_congr_left fun x hx => congrArg Prod.fst (hS3 x hx)]
      exact List.map_id _
    have heval := simplifyPair_stack_eval noParentCtx d ch ch hche hch1
      (fun x hx => (nfRoot_parts x (hall x hx)).2.1)
      (fun x hx => (nfRoot_parts x (hall x hx)).2.2)
    have hens : ensureStackTracks (OTItem.stack d ch) = OTItem.stack d ch := by
      simp only [ensureStackTracks]
      congr 1
      rw [List.map_congr_left fun x hx => if_pos ((nfRoot_parts x (hall x hx)).1)]
      exact List.map_id _
    have hM : stackTrim (ensureStackTracks (OTItem.stack d ch)) = OTItem.stack d ch := by
      rw [hens]
      exact stackTrim_noSrc d ch (plainD_spec d hpl).2.2.2.1
    by_cases hlen1 : ch.length = 1
    · obtain ⟨x, rfl⟩ := List.length_eq_one.mp hlen1
      have hxt : x.isTrack = true := (nfRoot_parts x (hall x (by simp))).1
      have hredT : isRedundantContainer noParentCtx (OTItem.stack d [x]) = true := by
        simp [isRedundantContainer, amTopLevelTrack, OTItem.isComposition,
          OTItem.children, OTItem.isTrack, OTItem.isStack, valuableMetadata,
          OTItem.data, (plainD_spec d hpl).2.2.2.2, noParentCtx]
      have hcol := collapse_stack_not_stack d x hxt
      have hfin : simplifyFinish noParentCtx (OTItem.stack d [x]) =
          collapseRedundant (OTItem.stack d [x]) := by
        simp only [simplifyFinish]
        rw [if_pos hredT]
      simp only [simplifyTimeline, htr, heval, hM, hfin]
      rw [if_neg (by simp [hcol])]
      rw [← htr]
    · have hfin : simplifyFinish noParentCtx (OTItem.stack d ch) = OTItem.stack d ch := by
        simp only [simplifyFinish]
        rw [if_neg (by simp [notRedundant_of_length noParentCtx (OTItem.stack d ch)
              (by simpa [OTItem.children] using hlen1)])]
        rw [if_pos (by simp [OTItem.isStack, noParentCtx]), hens]
      simp only [simplifyTimeline, htr, heval, hM, hfin]
      rw [if_pos (by simp [OTItem.isStack])]
      rw [← htr]

/-- **C4** (amended).  At the timeline level the simplifier stabilises:
every timeline in simplified normal form — a plain root stack of plain
tracks over clips, gaps and multi-track sub-stacks (`nfTimeline`) — is a
fixed point of the timeline-level simplify, so on normal forms
`simplify (simplify tl) = simplify tl`; in particular the two nested
example timelines, which are not normal forms, reach a fixed point after
one call.  (Genuine idempotence on arbitrary trees is refuted by the
counterexample: a redundant container handed to `_simplify` without a
parent collapses once more on the second call.) -/
theorem simplify_idempotent_on_normal_forms :
    (∀ tl : OTimeline, nfTimeline tl = true →
        simplifyTimeline (simplifyTimeline tl) = simplifyTimeline tl) ∧
    simplifyTimeline (simplifyTimeline tlTrackStackTrackClip) =
      simplifyTimeline tlTrackStackTrackClip ∧
    simplifyTimeline (simplifyTimeline tlTrackStackTrackTrackClip) =
      simplifyTimeline tlTrackStackTrackTrackClip := by
  have hgen : ∀ tl : OTimeline, nfTimeline tl = true →
      simplifyTimeline (simplifyTimeline tl) = simplifyTimeline tl := by
    intro tl h
    rw [simplifyTimeline_nf_fixed tl h]
    exact simplifyTimeline_nf_fixed tl h
  have hNF : nfTimeline ⟨"tl", OTItem.stack ItemData.default
      [OTItem.track ItemData.default [plainClip]]⟩ = true := by
    rfl
  refine ⟨hgen, ?_, ?_⟩
  · have h1 : simplifyTimeline tlTrackStackTrackClip =
        ⟨"tl", OTItem.stack ItemData.default [OTItem.track ItemData.default [plainClip]]⟩ := by
      simp [simplifyTimeline, simplifyItem, simplifyPair, simplifyChildren, simplifyFinish,
        isRedundantContainer, amTopLevelTrack, collapseRedundant, stackTrim,
        ensureStackTracks, wrapInTrack, trackFlattenLoop, stackFlattenLoop,
        trackFlattenChild, trackFlattenKids, mergedFirstItem, fixTimeEffectDuration,
        stackFlattenInner, trackItemCanFlatten, stackItemCanBeFlatten,
        containsSomethingValuable, listContainsValuable, valuableMetadata,
        hasEffects, hasTimeEffect, hasTransitionsIn, trimmedRangeOf,
        trackTrimmedToRange, trimItems, trimMarkersItem, rangeContains,
        itemDurQ, durSumQ, durMaxQ, childCtx, noParentCtx,
        OTItem.isTrack, OTItem.isStack, OTItem.isComposition, OTItem.isItem,
        OTItem.isTransition, OTItem.children, OTItem.data, OTItem.withData,
        ItemData.default, plainClip, tlTrackStackTrackClip, transcribeMediaKind]
    rw [h1]
    exact simplifyTimeline_nf_fixed _ hNF
  · have h2 : simplifyTimeline tlTrackStackTrackTrackClip =
        ⟨"tl", OTItem.stack ItemData.default [OTItem.track ItemData.default [plainClip]]⟩ := by
      simp [simplifyTimeline, simplifyItem, simplifyPair, simplifyChildren, simplifyFinish,
        isRedundantContainer, amTopLevelTrack, collapseRedundant, stackTrim,
        ensureStackTracks, wrapInTrack, trackFlattenLoop, stackFlattenLoop,
        trackFlattenChild, trackFlattenKids, mergedFirstItem, fixTimeEffectDuration,
        stackFlattenInner, trackItemCanFlatten, stackItemCanBeFlatten,
        containsSomethingValuable, listContainsValuable, valuableMetadata,
        hasEffects, hasTimeEffect, hasTransitionsIn, trimmedRangeOf,
        trackTrimmedToRange, trimItems, trimMarkersItem, rangeContains,
        itemDurQ, durSumQ, durMaxQ, childCtx, noParentCtx,
        OTItem.isTrack, OTItem.isStack, OTItem.isComposition, OTItem.isItem,
        OTItem.isTransition, OTItem.children, OTItem.data, OTItem.withData,
        ItemData.default, plainClip, tlTrackStackTrackTrackClip, transcribeMediaKind]
    rw [h2]
    exact simplifyTimeline_nf_fixed _ hNF

end AAF
